import Mathlib

/-! Closed-form solution of a cubic in real coefficients (`cubic.c`).

A shallow embedding of `src/cubic.c`.  The program is one `main` plus three
complex-number helpers (`Complex`, `ctimes`, `cplus`).  The embedding is
generic in the number type `α` standing for C's `double`: every arithmetic
operator, comparison and literal of the source is kept as written, and the
functions taken from `<math.h>` (`sqrt`, `pow`, `acos`, `cos`, `fabs`) together
with the constant `Pi` are collected in the class `Libm`.

* At `α = Float` the definitions are the program as it runs.
* At `α = ℝ` (instance `Libm ℝ` below) they are the exact-arithmetic reading:
  `sqrt` is the real square root, `pow x y` the real power `x ^ y`, `acos` the
  principal arc cosine, `Pi` is `π`.
* At `α = Dbl` (further below) they are the double-precision reading in which
  runs of the program can be evaluated inside the logic: every operation is the
  exact one followed by IEEE 754 rounding to the nearest binary64 number.
-/

namespace CubicSolver

/-- The `<math.h>` functions the program calls and the constant `Pi` it defines
(`cubic.c` line 12). -/
class Libm (α : Type) where
  sqrt : α → α
  pow : α → α → α
  acos : α → α
  cos : α → α
  fabs : α → α
  Pi : α

/-- The machine reading: IEEE doubles, `Pi` the decimal literal of line 12. -/
instance : Libm Float where
  sqrt := Float.sqrt
  pow := Float.pow
  acos := Float.acos
  cos := Float.cos
  fabs := Float.abs
  Pi := 3.14159265358979323846

/-- The exact reading: doubles are real numbers, `pow x y` is the real power
(for `y = 1/3` and `x ≥ 0` the real cube root), and `Pi`, which line 12 spells as
`π` rounded to 21 significant digits, is `π` itself. -/
noncomputable instance : Libm ℝ where
  sqrt := Real.sqrt
  pow := fun x y => x ^ y
  acos := Real.arccos
  cos := Real.cos
  fabs := fun x => |x|
  Pi := Real.pi

/-- The type `COMPLEX` of lines 4-6:
`typedef struct complex { double real, imag; } COMPLEX;` -/
structure COMPLEX (α : Type) where
  real : α
  imag : α

section Program

variable {α : Type} [Add α] [Sub α] [Mul α] [Div α] [Neg α] [OfScientific α]
  [OfNat α 0] [OfNat α 2] [LT α] [LE α] [BEq α]
  [DecidableRel (fun x y : α => x < y)] [DecidableRel (fun x y : α => x ≤ y)] [Libm α]

open Libm

/-- Function `Complex(x, y)` (lines 152-160): the complex made from the real
arguments. -/
def Complex (x y : α) : COMPLEX α :=
  { real := x, imag := y }

/-- Function `ctimes(a, b)` (lines 162-170): product. -/
def ctimes (a b : COMPLEX α) : COMPLEX α :=
  { real := a.real * b.real - a.imag * b.imag,
    imag := a.real * b.imag + a.imag * b.real }

/-- Function `cplus(a, b)` (lines 172-179): sum. -/
def cplus (a b : COMPLEX α) : COMPLEX α :=
  { real := a.real + b.real,
    imag := a.imag + b.imag }

/-- Line 49: `omega = Complex(-0.5, sqrt(3.0) / 2.0)`. -/
def omega : COMPLEX α :=
  Complex (-0.5) (sqrt 3.0 / 2.0)

/-- Line 50: `omegasquared = Complex(-0.5, -sqrt(3.0) / 2.0)`. -/
def omegasquared : COMPLEX α :=
  Complex (-0.5) (-sqrt 3.0 / 2.0)

/-- The values of `main`'s locals `p q r a b t` after lines 81-92. -/
structure Depressed (α : Type) where
  p : α
  q : α
  r : α
  a : α
  b : α
  t : α

/-- Lines 81-92 of `main`: divide through by the leading coefficient `o`,
change variable `x = x' - p/3` to reach `x'^3 + a x' + b = 0`, and compute
`t = b^2/4 + a^3/27`. -/
def depress (o p q r : α) : Depressed α :=
  let p := p / o
  let q := q / o
  let r := r / o
  let a := q - p * p / 3.0
  let b := (2.0 * p * p * p - 9.0 * p * q + 27.0 * r) / 27.0
  let t := b * b / 4.0 + a * a * a / 27.0
  { p := p, q := q, r := r, a := a, b := b, t := t }

/-- The three roots `root_1`, `root_2`, `root_3` as `main` holds them before
printing. -/
structure Roots (α : Type) where
  root_1 : COMPLEX α
  root_2 : COMPLEX α
  root_3 : COMPLEX α

/-- Line 97 of `main`: the first value of the local `rho` in the branch taken
when `t < 0.0`, `rho = pow(-a, 1.5) / sqrt(27.0)`. -/
def trig_rho (a : α) : α :=
  pow (-a) 1.5 / sqrt 27.0

/-- Line 98 of `main`: the local `theta = acos(b / rho / 2.0)`, with `rho` the
value of line 97. -/
def trig_theta (a b : α) : α :=
  acos (b / trig_rho a / 2.0)

/-- Lines 96-102 of `main`: the branch taken when `t < 0.0`. -/
def trig (a b : α) : Roots α :=
  let rho := pow (-a) 1.5 / sqrt 27.0
  let theta := acos (b / rho / 2.0)
  let rho := -2.0 * pow rho (1.0 / 3.0)
  { root_1 := Complex (cos (theta / 3.0) * rho) 0.0,
    root_2 := Complex (cos ((2.0 * Pi + theta) / 3.0) * rho) 0.0,
    root_3 := Complex (cos ((4.0 * Pi + theta) / 3.0) * rho) 0.0 }

/-- Lines 106-116 of `main`: `t = sqrt(t)`, `l = b/2 + t`, `m = b/2 - t`, then
the sign-handling cube-root step; returns the final `(l, m)`. -/
def cardano_lm (b t : α) : α × α :=
  let t := sqrt t
  let l := b / 2 + t
  let m := b / 2 - t
  let l := if l ≥ 0 then -pow l (1.0 / 3.0) else pow (-l) (1.0 / 3.0)
  let m := if m ≥ 0 then -pow m (1.0 / 3.0) else pow (-m) (1.0 / 3.0)
  (l, m)

/-- Lines 106-128 of `main`: the branch taken when `t < 0.0` fails. -/
def cardano (b t : α) : Roots α :=
  let lm := cardano_lm b t
  let l := lm.1
  let m := lm.2
  { root_1 := Complex (l + m) 0.0,
    root_2 := cplus (ctimes omega (Complex l 0.0)) (ctimes omegasquared (Complex m 0.0)),
    root_3 := cplus (ctimes omegasquared (Complex l 0.0)) (ctimes omega (Complex m 0.0)) }

/-- Lines 81-129 of `main`: the roots of the depressed cubic, by the branch
`if (t < 0.0) ... else ...`. -/
def solve (o p q r : α) : Roots α :=
  let d := depress o p q r
  if d.t < 0.0 then trig d.a d.b else cardano d.b d.t

/-- Line 131 and the first argument of each of the three `printf("%.16g", ...)`
calls: `p /= 3.0` followed by `root_k.real - p`; the imaginary part is passed on
unchanged.  This is the root the program reports. -/
def unshift (p : α) (z : COMPLEX α) : COMPLEX α :=
  let p := p / 3.0
  Complex (z.real - p) z.imag

/-- The three roots as the program reports them: lines 81-131 of `main` and the
`root_k.real - p` of the `printf` calls. -/
def roots (o p q r : α) : Roots α :=
  let d := depress o p q r
  let s := solve o p q r
  { root_1 := unshift d.p s.root_1,
    root_2 := unshift d.p s.root_2,
    root_3 := unshift d.p s.root_3 }

/-- One root as lines 133-136 (and 138-141, 143-146) print it, the leading
`"\n"` of the later calls apart: `printf("%.16g", re)` and then, if
`(im != 0)`, `printf("%s%.16g i", im < 0 ? " - " : " + ", fabs(im))`.
`fmt` stands for the conversion `%.16g`; `z` is the root already un-shifted. -/
def print_root (fmt : α → String) (z : COMPLEX α) : String :=
  fmt z.real ++
    (if z.imag != 0 then
      (if z.imag < 0 then " - " else " + ") ++ fmt (fabs z.imag) ++ " i"
    else "")

/-- Lines 133-148: everything `main` writes to standard output. -/
def print_roots (fmt : α → String) (R : Roots α) : String :=
  print_root fmt R.root_1 ++ "\n" ++ print_root fmt R.root_2 ++ "\n" ++
    print_root fmt R.root_3 ++ "\n"

/-- What one run of the program leaves behind: `status` is `some 1` when
`exit(1)` was called and `none` when `main` ran to its closing brace (the source
has no `return` and no other `exit`), `stdout` and `stderr` are the texts written
to the two streams. -/
structure Outcome where
  status : Option Nat
  stdout : String
  stderr : String

/-- The program `main(argc, argv)` (lines 41-149).  `argv` is the full argument
vector, program name first, so `argc = argv.length`; `sscanf s` stands for
`sscanf(s, "%lf", &x)`, `some x` when it returns 1; `fmt` stands for `%.16g`. -/
def main (sscanf : String → Option α) (fmt : α → String) (argv : List String) : Outcome :=
  match argv with
  | [_, s1, s2, s3, s4] =>
    match sscanf s1 with
    | none => { status := some 1, stdout := "", stderr := "cubic: cannot parse " ++ s1 ++ "\n" }
    | some o =>
    match sscanf s2 with
    | none => { status := some 1, stdout := "", stderr := "cubic: cannot parse " ++ s2 ++ "\n" }
    | some p =>
    match sscanf s3 with
    | none => { status := some 1, stdout := "", stderr := "cubic: cannot parse " ++ s3 ++ "\n" }
    | some q =>
    match sscanf s4 with
    | none => { status := some 1, stdout := "", stderr := "cubic: cannot parse " ++ s4 ++ "\n" }
    | some r =>
    if o == 0 then
      { status := some 1, stdout := "",
        stderr := "cubic: sorry buddy, that\x27s a quadratic.\n" }
    else
      { status := none, stdout := print_roots fmt (roots o p q r), stderr := "" }
  | _ =>
    { status := some 1, stdout := "",
      stderr := "syntax: cubic c3 c2 c1 c0\nIndicate missing terms with zeroes.\n" }

end Program

/-- A `COMPLEX` over the reals read as the complex number `real + imag * i`. -/
def toC (z : COMPLEX ℝ) : ℂ :=
  ⟨z.real, z.imag⟩


/-! ### The double-precision reading

IEEE 754 binary64 arithmetic over the finite numbers of the normal range.  A
double is carried as the real number it denotes; every arithmetic operation
returns the exact result rounded to the nearest double, ties to even
(`roundTiesToEven`), as IEEE 754 prescribes for `+ - * /` and `sqrt`.  The
functions `pow`, `acos` and `cos` of the C library are taken correctly rounded
as well.  Overflow, subnormal numbers, the sign of zero and NaN are not
represented, so this reading speaks only of runs whose values stay finite and
normal. -/

/-- Round a real to the nearest integer, a tie going to the even neighbour. -/
noncomputable def rne (m : ℝ) : ℤ :=
  if Int.fract m = 1 / 2 then (if Even ⌊m⌋ then ⌊m⌋ else ⌊m⌋ + 1) else round m

/-- Round a real to the nearest binary64 number (53-bit significand, ties to
even): with `2^e ≤ |x| < 2^(e+1)` the result is the multiple of `2^(e-52)`
nearest to `x`. -/
noncomputable def rnd (x : ℝ) : ℝ :=
  if x = 0 then 0 else (rne (x / 2 ^ (Int.log 2 |x| - 52)) : ℝ) * 2 ^ (Int.log 2 |x| - 52)

/-- A C `double`, carried as the real number it denotes. -/
structure Dbl where
  val : ℝ

noncomputable instance : Add Dbl :=
  ⟨fun x y => ⟨rnd (x.val + y.val)⟩⟩

noncomputable instance : Sub Dbl :=
  ⟨fun x y => ⟨rnd (x.val - y.val)⟩⟩

noncomputable instance : Mul Dbl :=
  ⟨fun x y => ⟨rnd (x.val * y.val)⟩⟩

noncomputable instance : Div Dbl :=
  ⟨fun x y => ⟨rnd (x.val / y.val)⟩⟩

noncomputable instance : Neg Dbl :=
  ⟨fun x => ⟨-x.val⟩⟩

/-- A decimal literal denotes the double nearest to it. -/
noncomputable instance : OfScientific Dbl :=
  ⟨fun m s e => ⟨rnd (OfScientific.ofScientific m s e)⟩⟩

noncomputable instance : OfNat Dbl 0 :=
  ⟨⟨0⟩⟩

noncomputable instance : OfNat Dbl 2 :=
  ⟨⟨2⟩⟩

instance : LT Dbl :=
  ⟨fun x y => x.val < y.val⟩

instance : LE Dbl :=
  ⟨fun x y => x.val ≤ y.val⟩

noncomputable instance : DecidableRel (fun x y : Dbl => x < y) :=
  fun x y => inferInstanceAs (Decidable (x.val < y.val))

noncomputable instance : DecidableRel (fun x y : Dbl => x ≤ y) :=
  fun x y => inferInstanceAs (Decidable (x.val ≤ y.val))

noncomputable instance : BEq Dbl :=
  ⟨fun x y => decide (x.val = y.val)⟩

/-- The C library on doubles, each function correctly rounded; `Pi` is the
double nearest to the literal of line 12. -/
noncomputable instance : Libm Dbl where
  sqrt := fun x => ⟨rnd (√x.val)⟩
  pow := fun x y => ⟨rnd (x.val ^ y.val)⟩
  acos := fun x => ⟨rnd (Real.arccos x.val)⟩
  cos := fun x => ⟨rnd (Real.cos x.val)⟩
  fabs := fun x => ⟨|x.val|⟩
  Pi := 3.14159265358979323846

/-! ## Auxiliary lemmas: the exact-arithmetic reading of each step -/

theorem cbrt_cube (x : ℝ) (hx : 0 ≤ x) : (x ^ (1 / 3 : ℝ)) ^ 3 = x := by
  rw [← Real.rpow_natCast, ← Real.rpow_mul hx]
  norm_num

theorem cube_inj {x y : ℝ} (h : x ^ 3 = y ^ 3) : x = y := by
  have hinj : Function.Injective (fun u : ℝ => u ^ 3) :=
    (Odd.strictMono_pow (by decide)).injective
  exact hinj h

theorem sqrt3_sq : (√3 : ℝ) * √3 = 3 :=
  Real.mul_self_sqrt (by norm_num)

theorem depress_p (o p q r : ℝ) : (depress o p q r).p = p / o :=
  rfl

theorem depress_a (o p q r : ℝ) :
    (depress o p q r).a = q / o - p / o * (p / o) / 3 := by
  simp only [depress]
  norm_num

theorem depress_b (o p q r : ℝ) :
    (depress o p q r).b =
      (2 * (p / o) * (p / o) * (p / o) - 9 * (p / o) * (q / o) + 27 * (r / o)) / 27 := by
  simp only [depress]
  norm_num

theorem depress_t (o p q r : ℝ) :
    (depress o p q r).t =
      (depress o p q r).b * (depress o p q r).b / 4 +
        (depress o p q r).a * (depress o p q r).a * (depress o p q r).a / 27 := by
  simp only [depress]
  norm_num

theorem solve_neg (o p q r : ℝ) (h : (depress o p q r).t < 0) :
    solve o p q r = trig (depress o p q r).a (depress o p q r).b := by
  have h0 : (depress o p q r).t < (0.0 : ℝ) := by norm_num; exact h
  simp only [solve, if_pos h0]

theorem solve_nonneg (o p q r : ℝ) (h : 0 ≤ (depress o p q r).t) :
    solve o p q r = cardano (depress o p q r).b (depress o p q r).t := by
  have h0 : ¬ (depress o p q r).t < (0.0 : ℝ) := by norm_num; exact h
  simp only [solve, if_neg h0]

/-! ### The Cardano branch -/

theorem cardano_lm_fst (b t : ℝ) :
    (cardano_lm b t).1 =
      if b / 2 + √t ≥ 0 then -(b / 2 + √t) ^ (1 / 3 : ℝ) else (-(b / 2 + √t)) ^ (1 / 3 : ℝ) := by
  simp only [cardano_lm, Libm.pow, Libm.sqrt]
  norm_num

theorem cardano_lm_snd (b t : ℝ) :
    (cardano_lm b t).2 =
      if b / 2 - √t ≥ 0 then -(b / 2 - √t) ^ (1 / 3 : ℝ) else (-(b / 2 - √t)) ^ (1 / 3 : ℝ) := by
  simp only [cardano_lm, Libm.pow, Libm.sqrt]
  norm_num

theorem cardano_lm_fst_cube (b t : ℝ) : (cardano_lm b t).1 ^ 3 = -(b / 2 + √t) := by
  rw [cardano_lm_fst]
  split_ifs with h
  · rw [neg_pow, cbrt_cube _ h]; norm_num
  · rw [cbrt_cube _ (by linarith [not_le.mp h])]

theorem cardano_lm_snd_cube (b t : ℝ) : (cardano_lm b t).2 ^ 3 = -(b / 2 - √t) := by
  rw [cardano_lm_snd]
  split_ifs with h
  · rw [neg_pow, cbrt_cube _ h]; norm_num
  · rw [cbrt_cube _ (by linarith [not_le.mp h])]

theorem cardano_lm_mul (a b t : ℝ) (ht : t = b * b / 4 + a * a * a / 27) (h0 : 0 ≤ t) :
    (cardano_lm b t).1 * (cardano_lm b t).2 = -a / 3 := by
  apply cube_inj
  rw [mul_pow, cardano_lm_fst_cube, cardano_lm_snd_cube]
  have hs : √t * √t = t := Real.mul_self_sqrt h0
  rw [ht] at hs
  rw [ht]
  linear_combination -hs

theorem cardano_root_1 (b t : ℝ) :
    (cardano b t).root_1 = ⟨(cardano_lm b t).1 + (cardano_lm b t).2, 0⟩ := by
  simp only [cardano, Complex]
  norm_num

theorem cardano_root_2 (b t : ℝ) :
    (cardano b t).root_2 = ⟨-((cardano_lm b t).1 + (cardano_lm b t).2) / 2,
      √3 / 2 * ((cardano_lm b t).1 - (cardano_lm b t).2)⟩ := by
  simp only [cardano, Complex, ctimes, cplus, omega, omegasquared, Libm.sqrt]
  norm_num
  constructor <;> ring

theorem cardano_root_3 (b t : ℝ) :
    (cardano b t).root_3 = ⟨-((cardano_lm b t).1 + (cardano_lm b t).2) / 2,
      √3 / 2 * ((cardano_lm b t).2 - (cardano_lm b t).1)⟩ := by
  simp only [cardano, Complex, ctimes, cplus, omega, omegasquared, Libm.sqrt]
  norm_num
  constructor <;> ring

/-- Sum, sum of pairwise products and product of three complex numbers of the
shape the Cardano branch produces. -/
theorem vieta_shape (l m k : ℝ) (hk : k * k = 3) :
    let Y1 : ℂ := ⟨l + m, 0⟩
    let Y2 : ℂ := ⟨-(l + m) / 2, k / 2 * (l - m)⟩
    let Y3 : ℂ := ⟨-(l + m) / 2, k / 2 * (m - l)⟩
    Y1 + Y2 + Y3 = 0 ∧ Y1 * Y2 + Y1 * Y3 + Y2 * Y3 = ⟨-3 * (l * m), 0⟩ ∧
      Y1 * Y2 * Y3 = ⟨l ^ 3 + m ^ 3, 0⟩ := by
  intro Y1 Y2 Y3
  refine ⟨?_, ?_, ?_⟩
  · apply Complex.ext <;> simp [Y1, Y2, Y3] <;> ring
  · apply Complex.ext <;> simp [Y1, Y2, Y3]
    · linear_combination ((l - m) * (l - m) / 4) * hk
    · ring
  · apply Complex.ext <;> simp [Y1, Y2, Y3]
    · linear_combination ((l + m) * (l - m) * (l - m) / 4) * hk
    · ring

theorem cardano_vieta (a b t : ℝ) (ht : t = b * b / 4 + a * a * a / 27) (h0 : 0 ≤ t) :
    toC (cardano b t).root_1 + toC (cardano b t).root_2 + toC (cardano b t).root_3 = 0 ∧
    toC (cardano b t).root_1 * toC (cardano b t).root_2 +
      toC (cardano b t).root_1 * toC (cardano b t).root_3 +
      toC (cardano b t).root_2 * toC (cardano b t).root_3 = (a : ℂ) ∧
    toC (cardano b t).root_1 * toC (cardano b t).root_2 * toC (cardano b t).root_3 =
      (-b : ℂ) := by
  have h := vieta_shape (cardano_lm b t).1 (cardano_lm b t).2 √3 sqrt3_sq
  rw [cardano_root_1, cardano_root_2, cardano_root_3]
  simp only [toC]
  refine ⟨h.1, ?_, ?_⟩
  · rw [h.2.1, cardano_lm_mul a b t ht h0]
    apply Complex.ext <;> simp
    ring
  · rw [h.2.2, cardano_lm_fst_cube, cardano_lm_snd_cube]
    apply Complex.ext <;> simp
    ring

/-! ### The trigonometric branch -/

theorem neg_a_of_neg_t (a b : ℝ) (ht : b * b / 4 + a * a * a / 27 < 0) : a < 0 := by
  by_contra h
  push_neg at h
  have h3 : 0 ≤ a * a * a := by positivity
  nlinarith [mul_self_nonneg b]

theorem cos_shift_two (x : ℝ) :
    Real.cos ((2 * Real.pi + x) / 3) = -Real.cos (x / 3) / 2 - √3 / 2 * Real.sin (x / 3) := by
  have h : (2 * Real.pi + x) / 3 = x / 3 + (Real.pi - Real.pi / 3) := by ring
  rw [h, Real.cos_add, Real.cos_pi_sub, Real.sin_pi_sub, Real.cos_pi_div_three,
    Real.sin_pi_div_three]
  ring

theorem cos_shift_four (x : ℝ) :
    Real.cos ((4 * Real.pi + x) / 3) = -Real.cos (x / 3) / 2 + √3 / 2 * Real.sin (x / 3) := by
  have h : (4 * Real.pi + x) / 3 = x / 3 + (Real.pi / 3 + Real.pi) := by ring
  rw [h, Real.cos_add, Real.cos_add_pi, Real.sin_add_pi, Real.cos_pi_div_three,
    Real.sin_pi_div_three]
  ring

theorem cos_third (x : ℝ) : 4 * Real.cos (x / 3) ^ 3 - 3 * Real.cos (x / 3) = Real.cos x := by
  rw [← Real.cos_three_mul]
  congr 1
  ring

/-- The first value of `rho` in the trigonometric branch is positive. -/
theorem rho_pos (a : ℝ) (ha : a < 0) : 0 < (-a) ^ (3 / 2 : ℝ) / √27 :=
  div_pos (Real.rpow_pos_of_pos (by linarith) _) (Real.sqrt_pos.mpr (by norm_num))

theorem rho_sq (a : ℝ) (ha : a < 0) : ((-a) ^ (3 / 2 : ℝ) / √27) ^ 2 = (-a) ^ 3 / 27 := by
  have h : (3 / 2 : ℝ) * ((2 : ℕ) : ℝ) = ((3 : ℕ) : ℝ) := by norm_num
  rw [div_pow, Real.sq_sqrt (by norm_num), ← Real.rpow_natCast, ← Real.rpow_mul (by linarith),
    h, Real.rpow_natCast]

/-- The cube root of the first `rho` is positive. -/
theorem sigma_pos (a : ℝ) (ha : a < 0) : 0 < ((-a) ^ (3 / 2 : ℝ) / √27) ^ (1 / 3 : ℝ) :=
  Real.rpow_pos_of_pos (rho_pos a ha) _

theorem sigma_sq (a : ℝ) (ha : a < 0) :
    (((-a) ^ (3 / 2 : ℝ) / √27) ^ (1 / 3 : ℝ)) ^ 2 = -a / 3 := by
  apply cube_inj
  rw [← pow_mul, mul_comm, pow_mul, cbrt_cube _ (rho_pos a ha).le, rho_sq a ha]
  ring

theorem acos_arg_sq (a b : ℝ) (ht : b * b / 4 + a * a * a / 27 < 0) :
    (b / ((-a) ^ (3 / 2 : ℝ) / √27) / 2) ^ 2 < 1 := by
  have ha := neg_a_of_neg_t a b ht
  have hr := rho_pos a ha
  have hq := rho_sq a ha
  set ρ := (-a) ^ (3 / 2 : ℝ) / √27 with hρ
  have : (b / ρ / 2) ^ 2 = b ^ 2 / 4 / ρ ^ 2 := by ring
  rw [this, div_lt_one (by positivity), hq]
  nlinarith

theorem acos_arg_bounds (a b : ℝ) (ht : b * b / 4 + a * a * a / 27 < 0) :
    -1 < b / ((-a) ^ (3 / 2 : ℝ) / √27) / 2 ∧ b / ((-a) ^ (3 / 2 : ℝ) / √27) / 2 < 1 := by
  have h := acos_arg_sq a b ht
  constructor <;> nlinarith

theorem trig_root_1 (a b : ℝ) :
    (trig a b).root_1 =
      ⟨Real.cos (Real.arccos (b / ((-a) ^ (3 / 2 : ℝ) / √27) / 2) / 3) *
        (-2 * ((-a) ^ (3 / 2 : ℝ) / √27) ^ (1 / 3 : ℝ)), 0⟩ := by
  simp only [trig, Complex, Libm.pow, Libm.sqrt, Libm.acos, Libm.cos]
  norm_num

theorem trig_root_2 (a b : ℝ) :
    (trig a b).root_2 =
      ⟨Real.cos ((2 * Real.pi + Real.arccos (b / ((-a) ^ (3 / 2 : ℝ) / √27) / 2)) / 3) *
        (-2 * ((-a) ^ (3 / 2 : ℝ) / √27) ^ (1 / 3 : ℝ)), 0⟩ := by
  simp only [trig, Complex, Libm.pow, Libm.sqrt, Libm.acos, Libm.cos, Libm.Pi]
  norm_num

theorem trig_root_3 (a b : ℝ) :
    (trig a b).root_3 =
      ⟨Real.cos ((4 * Real.pi + Real.arccos (b / ((-a) ^ (3 / 2 : ℝ) / √27) / 2)) / 3) *
        (-2 * ((-a) ^ (3 / 2 : ℝ) / √27) ^ (1 / 3 : ℝ)), 0⟩ := by
  simp only [trig, Complex, Libm.pow, Libm.sqrt, Libm.acos, Libm.cos, Libm.Pi]
  norm_num

theorem trig_vieta_real (a b : ℝ) (ht : b * b / 4 + a * a * a / 27 < 0) :
    (trig a b).root_1.real + (trig a b).root_2.real + (trig a b).root_3.real = 0 ∧
    (trig a b).root_1.real * (trig a b).root_2.real +
      (trig a b).root_1.real * (trig a b).root_3.real +
      (trig a b).root_2.real * (trig a b).root_3.real = a ∧
    (trig a b).root_1.real * (trig a b).root_2.real * (trig a b).root_3.real = -b := by
  have ha := neg_a_of_neg_t a b ht
  have hr := rho_pos a ha
  have hσ2 := sigma_sq a ha
  have hσ3 := cbrt_cube _ (rho_pos a ha).le
  have hbd := acos_arg_bounds a b ht
  have hθ := Real.cos_arccos hbd.1.le hbd.2.le
  have hcos3 := cos_third (Real.arccos (b / ((-a) ^ (3 / 2 : ℝ) / √27) / 2))
  have hcs := Real.cos_sq_add_sin_sq (Real.arccos (b / ((-a) ^ (3 / 2 : ℝ) / √27) / 2) / 3)
  have hk := sqrt3_sq
  rw [trig_root_1, trig_root_2, trig_root_3]
  simp only [cos_shift_two, cos_shift_four]
  set ρ := (-a) ^ (3 / 2 : ℝ) / √27 with hρ
  set θ := Real.arccos (b / ρ / 2) with hθdef
  set σ := ρ ^ (1 / 3 : ℝ) with hσ
  set c := Real.cos (θ / 3) with hc
  set s := Real.sin (θ / 3) with hs
  set k := √3 with hkdef
  have hb : ρ * Real.cos θ * 2 = b := by
    have hne : ρ ≠ 0 := hr.ne'
    rw [hθ]
    field_simp
    ring
  refine ⟨by ring, ?_, ?_⟩
  · linear_combination (-s ^ 2 * σ ^ 2) * hk + (-3 * σ ^ 2) * hcs + (-3) * hσ2
  · linear_combination (2 * σ ^ 3 * c * s ^ 2) * hk + (6 * σ ^ 3 * c) * hcs +
      (-2 * σ ^ 3) * hcos3 + (-2 * Real.cos θ) * hσ3 + (-1) * hb

theorem trig_vieta (a b : ℝ) (ht : b * b / 4 + a * a * a / 27 < 0) :
    toC (trig a b).root_1 + toC (trig a b).root_2 + toC (trig a b).root_3 = 0 ∧
    toC (trig a b).root_1 * toC (trig a b).root_2 +
      toC (trig a b).root_1 * toC (trig a b).root_3 +
      toC (trig a b).root_2 * toC (trig a b).root_3 = (a : ℂ) ∧
    toC (trig a b).root_1 * toC (trig a b).root_2 * toC (trig a b).root_3 =
      (-b : ℂ) := by
  have h := trig_vieta_real a b ht
  have e1 : toC (trig a b).root_1 = (((trig a b).root_1.real : ℝ) : ℂ) := by
    rw [trig_root_1]; rfl
  have e2 : toC (trig a b).root_2 = (((trig a b).root_2.real : ℝ) : ℂ) := by
    rw [trig_root_2]; rfl
  have e3 : toC (trig a b).root_3 = (((trig a b).root_3.real : ℝ) : ℂ) := by
    rw [trig_root_3]; rfl
  rw [e1, e2, e3]
  refine ⟨?_, ?_, ?_⟩
  · exact_mod_cast h.1
  · exact_mod_cast h.2.1
  · exact_mod_cast h.2.2

/-- Vieta's relations for the depressed cubic `x^3 + a x + b`: the three numbers
`solve` returns have sum `0`, pairwise products summing to `a`, and product
`-b`. -/
theorem solve_vieta (o p q r : ℝ) :
    toC (solve o p q r).root_1 + toC (solve o p q r).root_2 + toC (solve o p q r).root_3 = 0 ∧
    toC (solve o p q r).root_1 * toC (solve o p q r).root_2 +
      toC (solve o p q r).root_1 * toC (solve o p q r).root_3 +
      toC (solve o p q r).root_2 * toC (solve o p q r).root_3 = ((depress o p q r).a : ℂ) ∧
    toC (solve o p q r).root_1 * toC (solve o p q r).root_2 * toC (solve o p q r).root_3 =
      (-(depress o p q r).b : ℂ) := by
  rcases lt_or_le (depress o p q r).t 0 with h | h
  · rw [solve_neg o p q r h]
    exact trig_vieta _ _ (by rw [← depress_t]; exact h)
  · rw [solve_nonneg o p q r h]
    exact cardano_vieta _ _ _ (depress_t o p q r) h

theorem toC_unshift (p : ℝ) (z : COMPLEX ℝ) : toC (unshift p z) = toC z - ((p / 3 : ℝ) : ℂ) := by
  apply Complex.ext <;> simp [toC, unshift, Complex]
  norm_num

theorem toC_root_1 (o p q r : ℝ) :
    toC (roots o p q r).root_1 = toC (solve o p q r).root_1 - ((p / o / 3 : ℝ) : ℂ) := by
  simp only [roots, toC_unshift, depress_p]

theorem toC_root_2 (o p q r : ℝ) :
    toC (roots o p q r).root_2 = toC (solve o p q r).root_2 - ((p / o / 3 : ℝ) : ℂ) := by
  simp only [roots, toC_unshift, depress_p]

theorem toC_root_3 (o p q r : ℝ) :
    toC (roots o p q r).root_3 = toC (solve o p q r).root_3 - ((p / o / 3 : ℝ) : ℂ) := by
  simp only [roots, toC_unshift, depress_p]

/-- The cubic factors over the three reported roots. -/
theorem roots_factor (c3 c2 c1 c0 : ℝ) (h3 : c3 ≠ 0) (z : ℂ) :
    (c3 : ℂ) * z ^ 3 + c2 * z ^ 2 + c1 * z + c0 =
      c3 * (z - toC (roots c3 c2 c1 c0).root_1) * (z - toC (roots c3 c2 c1 c0).root_2) *
        (z - toC (roots c3 c2 c1 c0).root_3) := by
  obtain ⟨h1, h2, h3'⟩ := solve_vieta c3 c2 c1 c0
  rw [toC_root_1, toC_root_2, toC_root_3]
  rw [depress_a] at h2
  rw [depress_b] at h3'
  have e2 : c2 = c3 * (c2 / c3) := by field_simp
  have e1 : c1 = c3 * (c1 / c3) := by field_simp
  have e0 : c0 = c3 * (c0 / c3) := by field_simp
  generalize toC (solve c3 c2 c1 c0).root_1 = Y1 at *
  generalize toC (solve c3 c2 c1 c0).root_2 = Y2 at *
  generalize toC (solve c3 c2 c1 c0).root_3 = Y3 at *
  generalize c2 / c3 = p at *
  generalize c1 / c3 = q at *
  generalize c0 / c3 = r at *
  subst e2 e1 e0
  push_cast at h2 h3' ⊢
  linear_combination (c3 * (z + p / 3) ^ 2 : ℂ) * h1 - (c3 * (z + p / 3) : ℂ) * h2 + (c3 : ℂ) * h3'

theorem roots_root_1 (o p q r : ℝ) :
    (roots o p q r).root_1 =
      ⟨(solve o p q r).root_1.real - p / o / 3, (solve o p q r).root_1.imag⟩ := by
  simp only [roots, unshift, Complex, depress_p]
  norm_num

theorem roots_root_2 (o p q r : ℝ) :
    (roots o p q r).root_2 =
      ⟨(solve o p q r).root_2.real - p / o / 3, (solve o p q r).root_2.imag⟩ := by
  simp only [roots, unshift, Complex, depress_p]
  norm_num

theorem roots_root_3 (o p q r : ℝ) :
    (roots o p q r).root_3 =
      ⟨(solve o p q r).root_3.real - p / o / 3, (solve o p q r).root_3.imag⟩ := by
  simp only [roots, unshift, Complex, depress_p]
  norm_num

/-- In the trigonometric branch the angle `theta` lies strictly between `0` and
`π`. -/
theorem theta_bounds (a b : ℝ) (ht : b * b / 4 + a * a * a / 27 < 0) :
    0 < Real.arccos (b / ((-a) ^ (3 / 2 : ℝ) / √27) / 2) ∧
      Real.arccos (b / ((-a) ^ (3 / 2 : ℝ) / √27) / 2) < Real.pi := by
  have h := acos_arg_bounds a b ht
  refine ⟨Real.arccos_pos.mpr h.2, lt_of_le_of_ne (Real.arccos_le_pi _) ?_⟩
  intro hpi
  rw [Real.arccos_eq_pi] at hpi
  linarith [h.1]

/-- The three real parts of the trigonometric branch come out in the order
`root_1 < root_3 < root_2`. -/
theorem trig_order (a b : ℝ) (ht : b * b / 4 + a * a * a / 27 < 0) :
    (trig a b).root_1.real < (trig a b).root_3.real ∧
      (trig a b).root_3.real < (trig a b).root_2.real := by
  have ha := neg_a_of_neg_t a b ht
  have hσ := sigma_pos a ha
  obtain ⟨h0, hpi⟩ := theta_bounds a b ht
  rw [trig_root_1, trig_root_2, trig_root_3]
  simp only
  set θ := Real.arccos (b / ((-a) ^ (3 / 2 : ℝ) / √27) / 2) with hθ
  set σ := ((-a) ^ (3 / 2 : ℝ) / √27) ^ (1 / 3 : ℝ) with hσdef
  have e : Real.cos ((4 * Real.pi + θ) / 3) = Real.cos ((2 * Real.pi - θ) / 3) := by
    rw [← Real.cos_two_pi_sub]
    congr 1
    ring
  rw [e]
  have hp := Real.pi_pos
  have c1 : Real.cos ((2 * Real.pi - θ) / 3) < Real.cos (θ / 3) :=
    Real.strictAntiOn_cos ⟨by linarith, by linarith⟩ ⟨by linarith, by linarith⟩ (by linarith)
  have c2 : Real.cos ((2 * Real.pi + θ) / 3) < Real.cos ((2 * Real.pi - θ) / 3) :=
    Real.strictAntiOn_cos ⟨by linarith, by linarith⟩ ⟨by linarith, by linarith⟩ (by linarith)
  constructor <;> nlinarith

theorem trig_imag (a b : ℝ) :
    (trig a b).root_1.imag = 0 ∧ (trig a b).root_2.imag = 0 ∧ (trig a b).root_3.imag = 0 := by
  rw [trig_root_1, trig_root_2, trig_root_3]
  exact ⟨rfl, rfl, rfl⟩

theorem cardano_lm_ne (b t : ℝ) (ht : 0 < t) : (cardano_lm b t).1 ≠ (cardano_lm b t).2 := by
  intro h
  have h3 : (cardano_lm b t).1 ^ 3 = (cardano_lm b t).2 ^ 3 := by rw [h]
  rw [cardano_lm_fst_cube, cardano_lm_snd_cube] at h3
  have hs : 0 < √t := Real.sqrt_pos.mpr ht
  linarith

theorem cardano_lm_eq (b : ℝ) : (cardano_lm b 0).1 = (cardano_lm b 0).2 := by
  apply cube_inj
  rw [cardano_lm_fst_cube, cardano_lm_snd_cube, Real.sqrt_zero]
  ring

theorem sqrt3_pos : (0 : ℝ) < √3 :=
  Real.sqrt_pos.mpr (by norm_num)

/-- The coefficients (1, -6, 11, -6) give `a = -1`, `b = 0`. -/
theorem depress_123 :
    (depress (1 : ℝ) (-6) 11 (-6)).a = -1 ∧ (depress (1 : ℝ) (-6) 11 (-6)).b = 0 ∧
      (depress (1 : ℝ) (-6) 11 (-6)).t < 0 := by
  rw [depress_t, depress_a, depress_b]
  norm_num

/-- With `a = -1` the second `rho` is `-2/√3`: `√3` times the cube root of the
first `rho` is `1`. -/
theorem sigma_123 : √3 * ((-(-1 : ℝ)) ^ (3 / 2 : ℝ) / √27) ^ (1 / 3 : ℝ) = 1 := by
  have hs := sigma_sq (-1) (by norm_num)
  have hp := sigma_pos (-1) (by norm_num)
  have hk := sqrt3_sq
  have hk0 := sqrt3_pos
  set σ := ((-(-1 : ℝ)) ^ (3 / 2 : ℝ) / √27) ^ (1 / 3 : ℝ) with hσ
  have h1 : (√3 * σ) ^ 2 = 1 ^ 2 := by
    linear_combination σ ^ 2 * hk + 3 * hs
  have h2 : 0 ≤ √3 * σ := by positivity
  exact (pow_left_inj₀ h2 (by norm_num) (by norm_num)).mp h1

theorem trig_123 :
    trig (-1 : ℝ) 0 = ⟨⟨-1, 0⟩, ⟨1, 0⟩, ⟨0, 0⟩⟩ := by
  have hσ := sigma_123
  have hk := sqrt3_sq
  have e6 : Real.pi / 2 / 3 = Real.pi / 6 := by ring
  have h1 := trig_root_1 (-1) 0
  have h2 := trig_root_2 (-1) 0
  have h3 := trig_root_3 (-1) 0
  rw [cos_shift_two] at h2
  rw [cos_shift_four] at h3
  simp only [zero_div, Real.arccos_zero, e6, Real.cos_pi_div_six, Real.sin_pi_div_six]
    at h1 h2 h3
  set σ := ((-(-1 : ℝ)) ^ (3 / 2 : ℝ) / √27) ^ (1 / 3 : ℝ) with hσdef
  have r1 : √3 / 2 * (-2 * σ) = -1 := by linear_combination -hσ
  have r2 : (-(√3 / 2) / 2 - √3 / 2 * (1 / 2)) * (-2 * σ) = 1 := by linear_combination hσ
  have r3 : (-(√3 / 2) / 2 + √3 / 2 * (1 / 2)) * (-2 * σ) = 0 := by ring
  rw [r1] at h1
  rw [r2] at h2
  rw [r3] at h3
  cases hT : trig (-1 : ℝ) 0 with
  | mk x y z =>
    rw [hT] at h1 h2 h3
    simp only at h1 h2 h3
    rw [h1, h2, h3]

theorem roots_123 :
    roots (1 : ℝ) (-6) 11 (-6) = ⟨⟨1, 0⟩, ⟨3, 0⟩, ⟨2, 0⟩⟩ := by
  obtain ⟨ha, hb, ht⟩ := depress_123
  have hs := solve_neg (1 : ℝ) (-6) 11 (-6) ht
  rw [ha, hb, trig_123] at hs
  have h1 := roots_root_1 (1 : ℝ) (-6) 11 (-6)
  have h2 := roots_root_2 (1 : ℝ) (-6) 11 (-6)
  have h3 := roots_root_3 (1 : ℝ) (-6) 11 (-6)
  rw [hs] at h1 h2 h3
  norm_num at h1 h2 h3
  cases hT : roots (1 : ℝ) (-6) 11 (-6) with
  | mk x y z =>
    rw [hT] at h1 h2 h3
    simp only at h1 h2 h3
    rw [h1, h2, h3]

/-- The coefficients (1, 0, 0, -8) give `b = -8`, `t = 16`. -/
theorem depress_x3_8 :
    (depress (1 : ℝ) 0 0 (-8)).p = 0 ∧ (depress (1 : ℝ) 0 0 (-8)).b = -8 ∧
      (depress (1 : ℝ) 0 0 (-8)).t = 16 := by
  rw [depress_t, depress_a, depress_b, depress_p]
  norm_num

theorem sqrt_16 : √(16 : ℝ) = 4 := by
  rw [show (16 : ℝ) = 4 * 4 by norm_num]
  exact Real.sqrt_mul_self (by norm_num)

theorem cardano_lm_x3_8 : cardano_lm (-8 : ℝ) 16 = (0, 2) := by
  have h1 := cardano_lm_fst_cube (-8) 16
  have h2 := cardano_lm_snd_cube (-8) 16
  rw [sqrt_16] at h1 h2
  have e1 : (cardano_lm (-8 : ℝ) 16).1 = 0 := cube_inj (by rw [h1]; norm_num)
  have e2 : (cardano_lm (-8 : ℝ) 16).2 = 2 := cube_inj (by rw [h2]; norm_num)
  exact Prod.ext e1 e2

theorem roots_x3_8 :
    roots (1 : ℝ) 0 0 (-8) = ⟨⟨2, 0⟩, ⟨-1, -√3⟩, ⟨-1, √3⟩⟩ := by
  obtain ⟨hp, hb, ht⟩ := depress_x3_8
  have hs := solve_nonneg (1 : ℝ) 0 0 (-8) (by rw [ht]; norm_num)
  rw [hb, ht] at hs
  have h1 := roots_root_1 (1 : ℝ) 0 0 (-8)
  have h2 := roots_root_2 (1 : ℝ) 0 0 (-8)
  have h3 := roots_root_3 (1 : ℝ) 0 0 (-8)
  rw [hs] at h1 h2 h3
  rw [cardano_root_1, cardano_lm_x3_8] at h1
  rw [cardano_root_2, cardano_lm_x3_8] at h2
  rw [cardano_root_3, cardano_lm_x3_8] at h3
  norm_num at h1 h2 h3
  cases hT : roots (1 : ℝ) 0 0 (-8) with
  | mk x y z =>
    rw [hT] at h1 h2 h3
    simp only at h1 h2 h3
    rw [h1, h2, h3]

/-- The coefficients (1, 0, 0, 0) give `b = 0`, `t = 0`. -/
theorem depress_x3 :
    (depress (1 : ℝ) 0 0 0).p = 0 ∧ (depress (1 : ℝ) 0 0 0).b = 0 ∧
      (depress (1 : ℝ) 0 0 0).t = 0 := by
  rw [depress_t, depress_a, depress_b, depress_p]
  norm_num

theorem cardano_lm_x3 : cardano_lm (0 : ℝ) 0 = (0, 0) := by
  have h1 := cardano_lm_fst_cube 0 0
  have h2 := cardano_lm_snd_cube 0 0
  rw [Real.sqrt_zero] at h1 h2
  have e1 : (cardano_lm (0 : ℝ) 0).1 = 0 := cube_inj (by rw [h1]; norm_num)
  have e2 : (cardano_lm (0 : ℝ) 0).2 = 0 := cube_inj (by rw [h2]; norm_num)
  exact Prod.ext e1 e2

theorem roots_x3 :
    roots (1 : ℝ) 0 0 0 = ⟨⟨0, 0⟩, ⟨0, 0⟩, ⟨0, 0⟩⟩ := by
  obtain ⟨hp, hb, ht⟩ := depress_x3
  have hs := solve_nonneg (1 : ℝ) 0 0 0 (by rw [ht])
  rw [hb, ht] at hs
  have h1 := roots_root_1 (1 : ℝ) 0 0 0
  have h2 := roots_root_2 (1 : ℝ) 0 0 0
  have h3 := roots_root_3 (1 : ℝ) 0 0 0
  rw [hs] at h1 h2 h3
  rw [cardano_root_1, cardano_lm_x3] at h1
  rw [cardano_root_2, cardano_lm_x3] at h2
  rw [cardano_root_3, cardano_lm_x3] at h3
  norm_num at h1 h2 h3
  cases hT : roots (1 : ℝ) 0 0 0 with
  | mk x y z =>
    rw [hT] at h1 h2 h3
    simp only at h1 h2 h3
    rw [h1, h2, h3]

/-! ### Output and exit status -/

theorem count_nl_print_root (fmt : ℝ → String) (h : ∀ x, '\n' ∉ (fmt x).toList)
    (z : COMPLEX ℝ) : (print_root fmt z).toList.count '\n' = 0 := by
  have h0 : ∀ x, (fmt x).data.count '\n' = 0 := fun x => List.count_eq_zero.mpr (h x)
  unfold print_root
  split_ifs <;> simp [String.toList, String.data_append, List.count_append, h0]

theorem count_nl_print_roots (fmt : ℝ → String) (h : ∀ x, '\n' ∉ (fmt x).toList)
    (R : Roots ℝ) : (print_roots fmt R).toList.count '\n' = 3 := by
  have h1 := count_nl_print_root fmt h R.root_1
  have h2 := count_nl_print_root fmt h R.root_2
  have h3 := count_nl_print_root fmt h R.root_3
  simp only [String.toList] at h1 h2 h3
  simp [print_roots, String.toList, String.data_append, List.count_append, h1, h2, h3]

/-- Any argument count other than five ends in the usage message. -/
theorem main_usage {α : Type} [Add α] [Sub α] [Mul α] [Div α] [Neg α] [OfScientific α]
    [OfNat α 0] [OfNat α 2] [LT α] [LE α] [BEq α]
    [DecidableRel (fun x y : α => x < y)] [DecidableRel (fun x y : α => x ≤ y)] [Libm α]
    (sscanf : String → Option α) (fmt : α → String) (argv : List String)
    (h : argv.length ≠ 5) :
    main sscanf fmt argv =
      { status := some 1, stdout := "",
        stderr := "syntax: cubic c3 c2 c1 c0\nIndicate missing terms with zeroes.\n" } := by
  unfold main
  split
  · simp at h
  · rfl

/-- With five arguments that all parse and a non-zero leading coefficient the
program prints the three roots and makes no error exit. -/
theorem main_success (sscanf : String → Option ℝ) (fmt : ℝ → String)
    (s0 s1 s2 s3 s4 : String) (o p q r : ℝ)
    (h1 : sscanf s1 = some o) (h2 : sscanf s2 = some p) (h3 : sscanf s3 = some q)
    (h4 : sscanf s4 = some r) (ho : o ≠ 0) :
    main sscanf fmt [s0, s1, s2, s3, s4] =
      { status := none, stdout := print_roots fmt (roots o p q r), stderr := "" } := by
  simp [main, h1, h2, h3, h4, ho]

/-! ### The locals of the trigonometric branch -/

/-- The branch `trig` written over the values of its locals `rho` (line 97) and
`theta` (line 98). -/
theorem trig_locals (a b : ℝ) :
    trig a b =
      { root_1 := Complex (Libm.cos (trig_theta a b / 3.0) *
          (-2.0 * Libm.pow (trig_rho a) (1.0 / 3.0))) 0.0,
        root_2 := Complex (Libm.cos ((2.0 * Libm.Pi + trig_theta a b) / 3.0) *
          (-2.0 * Libm.pow (trig_rho a) (1.0 / 3.0))) 0.0,
        root_3 := Complex (Libm.cos ((4.0 * Libm.Pi + trig_theta a b) / 3.0) *
          (-2.0 * Libm.pow (trig_rho a) (1.0 / 3.0))) 0.0 } :=
  rfl

theorem trig_rho_eq (a : ℝ) : trig_rho a = (-a) ^ (3 / 2 : ℝ) / √27 := by
  simp only [trig_rho, Libm.pow, Libm.sqrt]
  norm_num

theorem trig_theta_eq (a b : ℝ) :
    trig_theta a b = Real.arccos (b / ((-a) ^ (3 / 2 : ℝ) / √27) / 2) := by
  simp only [trig_theta, trig_rho_eq, Libm.acos]
  norm_num

/-! ### Error messages -/

/-- A parse-error message is never the zero-leading-coefficient message. -/
theorem parse_msg_ne_quadratic (s : String) :
    "cubic: cannot parse " ++ s ++ "\n" ≠ "cubic: sorry buddy, that\x27s a quadratic.\n" := by
  intro h
  have hd := congrArg String.data h
  simp [String.data_append] at hd

/-- The standard-error text of `main` on five arguments, by the parse results in
order. -/
theorem main_stderr_five (sscanf : String → Option ℝ) (fmt : ℝ → String)
    (s0 s1 s2 s3 s4 : String) :
    (main sscanf fmt [s0, s1, s2, s3, s4]).stderr =
      match sscanf s1, sscanf s2, sscanf s3, sscanf s4 with
      | none, _, _, _ => "cubic: cannot parse " ++ s1 ++ "\n"
      | some _, none, _, _ => "cubic: cannot parse " ++ s2 ++ "\n"
      | some _, some _, none, _ => "cubic: cannot parse " ++ s3 ++ "\n"
      | some _, some _, some _, none => "cubic: cannot parse " ++ s4 ++ "\n"
      | some o, some _, some _, some _ =>
        if o = 0 then "cubic: sorry buddy, that\x27s a quadratic.\n" else "" := by
  cases h1 : sscanf s1 <;> cases h2 : sscanf s2 <;> cases h3 : sscanf s3 <;>
    cases h4 : sscanf s4 <;> simp [main, h1, h2, h3, h4]
  split_ifs <;> rfl

/-! ### Complex arithmetic -/

theorem omega_eq : (omega : COMPLEX ℝ) = ⟨-1 / 2, √3 / 2⟩ := by
  simp only [omega, Complex, Libm.sqrt]
  norm_num

theorem omegasquared_eq : (omegasquared : COMPLEX ℝ) = ⟨-1 / 2, -√3 / 2⟩ := by
  simp only [omegasquared, Complex, Libm.sqrt]
  norm_num

theorem toC_ctimes (a b : COMPLEX ℝ) : toC (ctimes a b) = toC a * toC b := by
  apply Complex.ext <;> simp [toC, ctimes]

theorem toC_cplus (a b : COMPLEX ℝ) : toC (cplus a b) = toC a + toC b := by
  apply Complex.ext <;> simp [toC, cplus]

/-- The text printed for one root, by the sign of its imaginary part. -/
theorem print_root_cases (fmt : ℝ → String) (z : COMPLEX ℝ) :
    (z.imag = 0 → print_root fmt z = fmt z.real) ∧
    (0 < z.imag → print_root fmt z = fmt z.real ++ " + " ++ fmt |z.imag| ++ " i") ∧
    (z.imag < 0 → print_root fmt z = fmt z.real ++ " - " ++ fmt |z.imag| ++ " i") := by
  refine ⟨fun h => ?_, fun h => ?_, fun h => ?_⟩
  · simp [print_root, h]
  · have h1 : z.imag ≠ 0 := h.ne'
    have h2 : ¬ z.imag < 0 := not_lt.mpr h.le
    simp [print_root, h1, h2, Libm.fabs, String.append_assoc]
  · have h1 : z.imag ≠ 0 := h.ne
    simp [print_root, h1, h, Libm.fabs, String.append_assoc]

/-! ### Sign handling, ordering and scaling -/

/-- The sign-handling step of lines 112-116 is minus the signed cube root. -/
theorem signed_cbrt (x : ℝ) :
    (if x ≥ 0 then -x ^ (1 / 3 : ℝ) else (-x) ^ (1 / 3 : ℝ)) =
      -(Real.sign x * |x| ^ (1 / 3 : ℝ)) := by
  rcases lt_trichotomy x 0 with h | h | h
  · rw [if_neg (not_le.mpr h), Real.sign_of_neg h, abs_of_neg h]
    ring
  · subst h
    rw [if_pos (le_refl _), Real.sign_zero, Real.zero_rpow (by norm_num)]
    ring
  · rw [if_pos h.le, Real.sign_of_pos h, abs_of_pos h]
    ring

theorem cube_le {x y : ℝ} (h : x ^ 3 ≤ y ^ 3) : x ≤ y := by
  have hmono : StrictMono (fun u : ℝ => u ^ 3) := Odd.strictMono_pow (by decide)
  exact hmono.le_iff_le.mp h

theorem cube_lt {x y : ℝ} (h : x ^ 3 < y ^ 3) : x < y := by
  have hmono : StrictMono (fun u : ℝ => u ^ 3) := Odd.strictMono_pow (by decide)
  exact hmono.lt_iff_lt.mp h

theorem cardano_lm_le (b t : ℝ) : (cardano_lm b t).1 ≤ (cardano_lm b t).2 := by
  apply cube_le
  rw [cardano_lm_fst_cube, cardano_lm_snd_cube]
  linarith [Real.sqrt_nonneg t]

theorem cardano_lm_lt (b t : ℝ) (ht : 0 < t) : (cardano_lm b t).1 < (cardano_lm b t).2 := by
  apply cube_lt
  rw [cardano_lm_fst_cube, cardano_lm_snd_cube]
  linarith [Real.sqrt_pos.mpr ht]

theorem depress_scale (k o p q r : ℝ) (hk : k ≠ 0) :
    depress (k * o) (k * p) (k * q) (k * r) = depress o p q r := by
  unfold depress
  simp only [mul_div_mul_left _ _ hk]

/-! ### Rounding to binary64 -/

theorem rne_eq (m : ℝ) (k : ℤ) (h : |m - k| < 1 / 2) : rne m = k := by
  rw [abs_lt] at h
  have hfl : round m = k := by
    rw [round_eq, Int.floor_eq_iff]
    constructor <;> linarith [h.1, h.2]
  have hfr : Int.fract m ≠ 1 / 2 := by
    intro hf
    have hm : m = ⌊m⌋ + 1 / 2 := by
      have := Int.floor_add_fract m
      linarith
    have h1 : ((⌊m⌋ - k : ℤ) : ℝ) < 0 := by push_cast; linarith [h.2]
    have h2 : (-1 : ℝ) < ((⌊m⌋ - k : ℤ) : ℝ) := by push_cast; linarith [h.1]
    have h1' : ⌊m⌋ - k < 0 := by exact_mod_cast h1
    have h2' : -1 < ⌊m⌋ - k := by exact_mod_cast h2
    omega
  rw [rne, if_neg hfr, hfl]

theorem rnd_eq (x : ℝ) (e k : ℤ) (h1 : (2 : ℝ) ^ e ≤ |x|) (h2 : |x| < (2 : ℝ) ^ (e + 1))
    (h3 : |x - k * (2 : ℝ) ^ (e - 52)| < (2 : ℝ) ^ (e - 53)) :
    rnd x = k * (2 : ℝ) ^ (e - 52) := by
  have hpos : 0 < |x| := lt_of_lt_of_le (by positivity) h1
  have hx : x ≠ 0 := abs_pos.mp hpos
  have hlog : Int.log 2 |x| = e := by
    have a1 : e ≤ Int.log 2 |x| := (Int.zpow_le_iff_le_log (by norm_num) hpos).mp (by exact_mod_cast h1)
    have a2 : Int.log 2 |x| < e + 1 := (Int.lt_zpow_iff_log_lt (by norm_num) hpos).mp (by exact_mod_cast h2)
    omega
  rw [rnd, if_neg hx, hlog]
  have hu : (0 : ℝ) < 2 ^ (e - 52) := by positivity
  congr 1
  have : rne (x / 2 ^ (e - 52)) = k := by
    apply rne_eq
    have e1 : x / 2 ^ (e - 52) - k = (x - k * (2 : ℝ) ^ (e - 52)) / 2 ^ (e - 52) := by
      field_simp
      ring
    rw [e1, abs_div, abs_of_pos hu, div_lt_iff₀ hu]
    have e2 : (1 / 2 : ℝ) * 2 ^ (e - 52) = 2 ^ (e - 53) := by
      have : e - 52 = (e - 53) + 1 := by ring
      rw [this, zpow_add₀ (by norm_num : (2 : ℝ) ≠ 0)]
      ring
    rw [e2]
    exact h3
  exact_mod_cast this

theorem rnd_zero : rnd 0 = 0 := by
  simp [rnd]

/-- Rounding of a positive real: `v = k * 2^(e-52)` is the double nearest to `x`
when `x` lies in the binade `[2^e, 2^(e+1))` and within half a unit in the last
place of `v`. -/
theorem rnd_pos (x v : ℝ) (e k : ℤ) (hv : v = k * (2 : ℝ) ^ (e - 52))
    (h1 : (2 : ℝ) ^ e ≤ x) (h2 : x < (2 : ℝ) ^ (e + 1))
    (h3 : -(2 : ℝ) ^ (e - 53) < x - v) (h4 : x - v < (2 : ℝ) ^ (e - 53)) : rnd x = v := by
  have hx : 0 < x := lt_of_lt_of_le (by positivity) h1
  rw [hv]
  apply rnd_eq x e k
  · rwa [abs_of_pos hx]
  · rwa [abs_of_pos hx]
  · rw [← hv, abs_lt]
    exact ⟨h3, h4⟩

/-- Rounding of a negative real, as `rnd_pos`. -/
theorem rnd_neg (x v : ℝ) (e k : ℤ) (hv : v = k * (2 : ℝ) ^ (e - 52))
    (h1 : (2 : ℝ) ^ e ≤ -x) (h2 : -x < (2 : ℝ) ^ (e + 1))
    (h3 : -(2 : ℝ) ^ (e - 53) < x - v) (h4 : x - v < (2 : ℝ) ^ (e - 53)) : rnd x = v := by
  have hx : x < 0 := neg_pos.mp (lt_of_lt_of_le (by positivity) h1)
  rw [hv]
  apply rnd_eq x e k
  · rwa [abs_of_neg hx]
  · rwa [abs_of_neg hx]
  · rw [← hv, abs_lt]
    exact ⟨h3, h4⟩

theorem dbl_add (x y z : ℝ) (h : rnd (x + y) = z) : (⟨x⟩ + ⟨y⟩ : Dbl) = ⟨z⟩ :=
  congrArg Dbl.mk h

theorem dbl_sub (x y z : ℝ) (h : rnd (x - y) = z) : (⟨x⟩ - ⟨y⟩ : Dbl) = ⟨z⟩ :=
  congrArg Dbl.mk h

theorem dbl_mul (x y z : ℝ) (h : rnd (x * y) = z) : (⟨x⟩ * ⟨y⟩ : Dbl) = ⟨z⟩ :=
  congrArg Dbl.mk h

theorem dbl_div (x y z : ℝ) (h : rnd (x / y) = z) : (⟨x⟩ / ⟨y⟩ : Dbl) = ⟨z⟩ :=
  congrArg Dbl.mk h

theorem dbl_neg (x z : ℝ) (h : -x = z) : (-⟨x⟩ : Dbl) = ⟨z⟩ :=
  congrArg Dbl.mk h

theorem dbl_lit (m : ℕ) (s : Bool) (e : ℕ) (z : ℝ)
    (h : rnd (OfScientific.ofScientific m s e) = z) :
    (OfScientific.ofScientific m s e : Dbl) = ⟨z⟩ :=
  congrArg Dbl.mk h

theorem rnd_of_zero (x : ℝ) (h : x = 0) : rnd x = 0 := by
  rw [h, rnd_zero]

/-- Rounding of a positive real known between the two midpoints around the
double `v = k * 2^(e-52)`, with `v` strictly inside its binade. -/
theorem rnd_between (w v : ℝ) (e k : ℤ) (hv : v = k * (2 : ℝ) ^ (e - 52))
    (hk1 : 2 ^ 52 < k) (hk2 : k < 2 ^ 53)
    (hlo : v - (2 : ℝ) ^ (e - 53) < w) (hhi : w < v + (2 : ℝ) ^ (e - 53)) : rnd w = v := by
  have hu : (0 : ℝ) < 2 ^ (e - 53) := by positivity
  have e52 : (2 : ℝ) ^ (e - 52) = 2 * 2 ^ (e - 53) := by
    have : e - 52 = (e - 53) + 1 := by ring
    rw [this, zpow_add₀ (by norm_num : (2 : ℝ) ≠ 0)]
    ring
  have ee : (2 : ℝ) ^ e = 2 ^ 53 * 2 ^ (e - 53) := by
    have : e = (53 : ℕ) + (e - 53) := by push_cast; ring
    conv_lhs => rw [this, zpow_add₀ (by norm_num : (2 : ℝ) ≠ 0), zpow_natCast]
  have ee1 : (2 : ℝ) ^ (e + 1) = 2 ^ 54 * 2 ^ (e - 53) := by
    have : e + 1 = (54 : ℕ) + (e - 53) := by push_cast; ring
    conv_lhs => rw [this, zpow_add₀ (by norm_num : (2 : ℝ) ≠ 0), zpow_natCast]
  have k1 : ((2 : ℝ) ^ 52 + 1) ≤ k := by exact_mod_cast Int.add_one_le_iff.mpr hk1
  have k2 : (k : ℝ) ≤ 2 ^ 53 - 1 := by exact_mod_cast Int.le_sub_one_iff.mpr hk2
  apply rnd_pos w v e k hv
  · rw [ee]
    rw [hv, e52] at hlo
    nlinarith
  · rw [ee1]
    rw [hv, e52] at hhi
    nlinarith
  · linarith
  · linarith


theorem rne_tie (m : ℝ) (k : ℤ) (hk : Even k) (h : m = k + 1 / 2 ∨ m = k - 1 / 2) :
    rne m = k := by
  rcases h with h | h
  · have hfl : ⌊m⌋ = k := by
      rw [Int.floor_eq_iff]
      constructor <;> linarith
    have hfr : Int.fract m = 1 / 2 := by
      rw [Int.fract, hfl, h]
      ring
    rw [rne, if_pos hfr, hfl, if_pos hk]
  · have hfl : ⌊m⌋ = k - 1 := by
      rw [Int.floor_eq_iff]
      push_cast
      constructor <;> linarith
    have hfr : Int.fract m = 1 / 2 := by
      rw [Int.fract, hfl, h]
      push_cast
      ring
    have hodd : ¬ Even (k - 1) := by
      rw [Int.not_even_iff_odd]
      exact hk.sub_odd odd_one
    rw [rne, if_pos hfr, hfl, if_neg hodd]
    ring

/-- Rounding of a real that lies exactly half-way between two doubles: the one
with the even significand `k` is taken. -/
theorem rnd_tie (x v : ℝ) (e k : ℤ) (hv : v = k * (2 : ℝ) ^ (e - 52)) (hk : Even k)
    (h1 : (2 : ℝ) ^ e ≤ |x|) (h2 : |x| < (2 : ℝ) ^ (e + 1))
    (h3 : x - v = (2 : ℝ) ^ (e - 53) ∨ x - v = -(2 : ℝ) ^ (e - 53)) : rnd x = v := by
  have hpos : 0 < |x| := lt_of_lt_of_le (by positivity) h1
  have hx : x ≠ 0 := abs_pos.mp hpos
  have hlog : Int.log 2 |x| = e := by
    have a1 : e ≤ Int.log 2 |x| :=
      (Int.zpow_le_iff_le_log (by norm_num) hpos).mp (by exact_mod_cast h1)
    have a2 : Int.log 2 |x| < e + 1 :=
      (Int.lt_zpow_iff_log_lt (by norm_num) hpos).mp (by exact_mod_cast h2)
    omega
  have hu : (0 : ℝ) < 2 ^ (e - 52) := by positivity
  have e52 : (2 : ℝ) ^ (e - 52) = 2 * 2 ^ (e - 53) := by
    have : e - 52 = (e - 53) + 1 := by ring
    rw [this, zpow_add₀ (by norm_num : (2 : ℝ) ≠ 0)]
    ring
  have hu' : (0 : ℝ) < 2 ^ (e - 53) := by positivity
  rw [rnd, if_neg hx, hlog, hv]
  congr 1
  have : rne (x / 2 ^ (e - 52)) = k := by
    apply rne_tie _ _ hk
    rcases h3 with h3 | h3
    · left
      rw [div_eq_iff hu.ne']
      rw [hv] at h3
      rw [e52] at h3 ⊢
      linarith
    · right
      rw [div_eq_iff hu.ne']
      rw [hv] at h3
      rw [e52] at h3 ⊢
      linarith
  exact_mod_cast this

/-! ### Literals of the program as doubles -/

theorem lit_three :
    (3.0 : Dbl) = ⟨3⟩ :=
  dbl_lit _ _ _ _ (rnd_pos _ _ 1 6755399441055744 (by norm_num) (by norm_num) (by norm_num)
    (by norm_num) (by norm_num))

theorem lit_two :
    (2.0 : Dbl) = ⟨2⟩ :=
  dbl_lit _ _ _ _ (rnd_pos _ _ 1 4503599627370496 (by norm_num) (by norm_num) (by norm_num)
    (by norm_num) (by norm_num))

theorem lit_nine :
    (9.0 : Dbl) = ⟨9⟩ :=
  dbl_lit _ _ _ _ (rnd_pos _ _ 3 5066549580791808 (by norm_num) (by norm_num) (by norm_num)
    (by norm_num) (by norm_num))

theorem lit_twenty_seven :
    (27.0 : Dbl) = ⟨27⟩ :=
  dbl_lit _ _ _ _ (rnd_pos _ _ 4 7599824371187712 (by norm_num) (by norm_num) (by norm_num)
    (by norm_num) (by norm_num))

theorem lit_four :
    (4.0 : Dbl) = ⟨4⟩ :=
  dbl_lit _ _ _ _ (rnd_pos _ _ 2 4503599627370496 (by norm_num) (by norm_num) (by norm_num)
    (by norm_num) (by norm_num))

theorem lit_three_halves :
    (1.5 : Dbl) = ⟨3 / 2 ^ 1⟩ :=
  dbl_lit _ _ _ _ (rnd_pos _ _ 0 6755399441055744 (by norm_num) (by norm_num) (by norm_num)
    (by norm_num) (by norm_num))

theorem lit_pi :
    (3.14159265358979323846 : Dbl) = ⟨884279719003555 / 2 ^ 48⟩ :=
  dbl_lit _ _ _ _ (rnd_pos _ _ 1 7074237752028440 (by norm_num) (by norm_num) (by norm_num)
    (by norm_num) (by norm_num))

theorem lit_zero : (0.0 : Dbl) = ⟨0⟩ :=
  dbl_lit _ _ _ _ (rnd_of_zero _ (by norm_num))

/-! ### The C library on doubles -/

theorem dbl_pow (x y z : ℝ) (h : rnd (x ^ y) = z) : (Libm.pow ⟨x⟩ ⟨y⟩ : Dbl) = ⟨z⟩ :=
  congrArg Dbl.mk h

theorem dbl_sqrt (x z : ℝ) (h : rnd (√x) = z) : (Libm.sqrt ⟨x⟩ : Dbl) = ⟨z⟩ :=
  congrArg Dbl.mk h

theorem dbl_acos (x z : ℝ) (h : rnd (Real.arccos x) = z) : (Libm.acos ⟨x⟩ : Dbl) = ⟨z⟩ :=
  congrArg Dbl.mk h

theorem dbl_cos (x z : ℝ) (h : rnd (Real.cos x) = z) : (Libm.cos ⟨x⟩ : Dbl) = ⟨z⟩ :=
  congrArg Dbl.mk h

theorem dbl_Pi : (Libm.Pi : Dbl) = (3.14159265358979323846 : Dbl) :=
  rfl

/-- Rounding of a square root, from the squares of the two midpoints. -/
theorem rnd_sqrt (x v : ℝ) (e k : ℤ) (hv : v = k * (2 : ℝ) ^ (e - 52))
    (hk1 : 2 ^ 52 < k) (hk2 : k < 2 ^ 53) (h0 : 0 ≤ v - (2 : ℝ) ^ (e - 53))
    (hlo : (v - (2 : ℝ) ^ (e - 53)) ^ 2 < x) (hhi : x < (v + (2 : ℝ) ^ (e - 53)) ^ 2) :
    rnd (√x) = v := by
  have hu : (0 : ℝ) < 2 ^ (e - 53) := by positivity
  apply rnd_between _ v e k hv hk1 hk2
  · exact Real.lt_sqrt_of_sq_lt hlo
  · rw [Real.sqrt_lt' (by linarith)]
    exact hhi

/-- Rounding of `x ^ 1.5`, from the squares of the two midpoints. -/
theorem rnd_rpow_three_halves (x v : ℝ) (e k : ℤ) (hx : 0 < x)
    (hv : v = k * (2 : ℝ) ^ (e - 52))
    (hk1 : 2 ^ 52 < k) (hk2 : k < 2 ^ 53) (h0 : 0 ≤ v - (2 : ℝ) ^ (e - 53))
    (hlo : (v - (2 : ℝ) ^ (e - 53)) ^ 2 < x ^ 3) (hhi : x ^ 3 < (v + (2 : ℝ) ^ (e - 53)) ^ 2) :
    rnd (x ^ (3 / 2 ^ 1 : ℝ)) = v := by
  have hu : (0 : ℝ) < 2 ^ (e - 53) := by positivity
  have hw : 0 < x ^ (3 / 2 ^ 1 : ℝ) := Real.rpow_pos_of_pos hx _
  have hsq : (x ^ (3 / 2 ^ 1 : ℝ)) ^ 2 = x ^ 3 := by
    have h : (3 / 2 ^ 1 : ℝ) * ((2 : ℕ) : ℝ) = ((3 : ℕ) : ℝ) := by norm_num
    rw [← Real.rpow_natCast, ← Real.rpow_mul hx.le, h, Real.rpow_natCast]
  apply rnd_between _ v e k hv hk1 hk2
  · rw [← hsq] at hlo
    exact lt_of_pow_lt_pow_left₀ 2 hw.le hlo
  · rw [← hsq] at hhi
    exact lt_of_pow_lt_pow_left₀ 2 (by linarith) hhi

/-- The double nearest to `π` is the double of the literal of line 12. -/
theorem rnd_pi : rnd Real.pi = 884279719003555 / 2 ^ 48 := by
  have h1 := Real.pi_gt_d20
  have h2 := Real.pi_lt_d20
  apply rnd_between _ _ 1 7074237752028440 (by norm_num) (by norm_num) (by norm_num)
  · norm_num at h1 ⊢
    linarith
  · norm_num at h2 ⊢
    linarith

theorem sqrt3_bounds : (17 / 10 : ℝ) < √3 ∧ √3 < 7 / 4 := by
  constructor
  · exact Real.lt_sqrt_of_sq_lt (by norm_num)
  · rw [Real.sqrt_lt' (by norm_num)]
    norm_num

/-- Just below `π/3` the cosine lies strictly between the two midpoints around
the double `1/2 + 2^-53`. -/
theorem cos_third_minus (δ : ℝ) (h1 : 7 / 10 ^ 17 ≤ δ) (h2 : δ ≤ 15 / 10 ^ 17) :
    1 / 2 + (1 : ℝ) / 2 ^ 54 < Real.cos (Real.pi / 3 - δ) ∧
      Real.cos (Real.pi / 3 - δ) < 1 / 2 + 3 / 2 ^ 54 := by
  have hδ0 : 0 < δ := lt_of_lt_of_le (by norm_num) h1
  have hδ1 : δ ≤ 1 := le_trans h2 (by norm_num)
  have hc1 : Real.cos δ ≤ 1 := Real.cos_le_one δ
  have hc2 : 1 - δ ^ 2 / 2 ≤ Real.cos δ := Real.one_sub_sq_div_two_le_cos
  have hs1 : Real.sin δ ≤ δ := Real.sin_le hδ0.le
  have hs2 : δ - δ ^ 3 / 4 < Real.sin δ := Real.sin_gt_sub_cube hδ0 hδ1
  obtain ⟨k1, k2⟩ := sqrt3_bounds
  have hsq : δ ^ 2 ≤ (15 / 10 ^ 17) ^ 2 := pow_le_pow_left₀ hδ0.le h2 2
  have hcu : δ ^ 3 ≤ (15 / 10 ^ 17) ^ 3 := pow_le_pow_left₀ hδ0.le h2 3
  have hs3 : (69 / 10 ^ 18 : ℝ) ≤ Real.sin δ := by
    have : (69 / 10 ^ 18 : ℝ) ≤ δ - δ ^ 3 / 4 := by
      have : (15 / 10 ^ 17 : ℝ) ^ 3 / 4 ≤ 1 / 10 ^ 18 := by norm_num
      linarith
    linarith
  have hs0 : 0 ≤ Real.sin δ := le_trans (by norm_num) hs3
  rw [Real.cos_sub, Real.cos_pi_div_three, Real.sin_pi_div_three]
  constructor
  · have hp : (17 / 10 : ℝ) / 2 * (69 / 10 ^ 18) ≤ √3 / 2 * Real.sin δ :=
      mul_le_mul (by linarith) hs3 (by norm_num) (by linarith)
    have hq : (1 : ℝ) / 2 * (1 - (15 / 10 ^ 17) ^ 2 / 2) ≤ 1 / 2 * Real.cos δ := by
      apply mul_le_mul_of_nonneg_left _ (by norm_num)
      linarith
    have hnum : (1 : ℝ) / 2 + 1 / 2 ^ 54 <
        1 / 2 * (1 - (15 / 10 ^ 17) ^ 2 / 2) + 17 / 10 / 2 * (69 / 10 ^ 18) := by norm_num
    linarith
  · have hp : √3 / 2 * Real.sin δ ≤ 7 / 4 / 2 * (15 / 10 ^ 17) :=
      mul_le_mul (by linarith) (by linarith) hs0 (by norm_num)
    have hnum : (1 : ℝ) / 2 + 7 / 4 / 2 * (15 / 10 ^ 17) < 1 / 2 + 3 / 2 ^ 54 := by norm_num
    linarith

/-- The cosine of a real just below `π/3` rounds to the double `1/2 + 2^-53`. -/
theorem rnd_cos_below_third (x : ℝ) (h1 : 7 / 10 ^ 17 ≤ Real.pi / 3 - x)
    (h2 : Real.pi / 3 - x ≤ 15 / 10 ^ 17) :
    rnd (Real.cos x) = 4503599627370497 / 2 ^ 53 := by
  have h := cos_third_minus (Real.pi / 3 - x) h1 h2
  rw [sub_sub_cancel] at h
  apply rnd_between _ _ (-1) 4503599627370497 (by norm_num) (by norm_num) (by norm_num)
  · norm_num at h ⊢
    linarith [h.1]
  · norm_num at h ⊢
    linarith [h.2]

/-- The cosine of a real just above `5π/3` rounds to the same double. -/
theorem rnd_cos_above_five_thirds (x : ℝ) (h1 : 7 / 10 ^ 17 ≤ x - 5 * Real.pi / 3)
    (h2 : x - 5 * Real.pi / 3 ≤ 15 / 10 ^ 17) :
    rnd (Real.cos x) = 4503599627370497 / 2 ^ 53 := by
  have e : Real.cos x = Real.cos (2 * Real.pi - x) := (Real.cos_two_pi_sub x).symm
  rw [e]
  apply rnd_cos_below_third
  · linarith
  · linarith

/-- The run of lines 81-92 on the doubles (1, -13, 0, 0), operation by
operation: `a = -169/3` and `b = -4394/27` are rounded, and the rounded `t`
comes out as `-2^-39`, although the exact `t` of `x³ - 13x²` is `0`. -/
theorem depress_doubles_1_m13_0_0 :
    depress (⟨1⟩ : Dbl) ⟨-13⟩ ⟨0⟩ ⟨0⟩ =
      { p := ⟨-13⟩, q := ⟨0⟩, r := ⟨0⟩,
        a := ⟨-7928211844016811 / 2 ^ 47⟩, b := ⟨-5725930776234363 / 2 ^ 45⟩,
        t := ⟨-1 / 2 ^ 39⟩ } := by
  have p : (⟨-13⟩ / ⟨1⟩ : Dbl) = ⟨-13⟩ :=
    dbl_div _ _ _ (rnd_neg _ _ 3 (-7318349394477056) (by norm_num) (by norm_num) (by norm_num)
      (by norm_num) (by norm_num))
  have q : (⟨0⟩ / ⟨1⟩ : Dbl) = ⟨0⟩ :=
    dbl_div _ _ _ (rnd_of_zero _ (by norm_num))
  have pp : (⟨-13⟩ * ⟨-13⟩ : Dbl) = ⟨169⟩ :=
    dbl_mul _ _ _ (rnd_pos _ _ 7 5946158883012608 (by norm_num) (by norm_num) (by norm_num)
      (by norm_num) (by norm_num))
  have pp3 : (⟨169⟩ / ⟨3⟩ : Dbl) = ⟨7928211844016811 / 2 ^ 47⟩ :=
    dbl_div _ _ _ (rnd_pos _ _ 5 7928211844016811 (by norm_num) (by norm_num) (by norm_num)
      (by norm_num) (by norm_num))
  have a : (⟨0⟩ - ⟨7928211844016811 / 2 ^ 47⟩ : Dbl) = ⟨-7928211844016811 / 2 ^ 47⟩ :=
    dbl_sub _ _ _ (rnd_neg _ _ 5 (-7928211844016811) (by norm_num) (by norm_num) (by norm_num)
      (by norm_num) (by norm_num))
  have b1 : (⟨2⟩ * ⟨-13⟩ : Dbl) = ⟨-26⟩ :=
    dbl_mul _ _ _ (rnd_neg _ _ 4 (-7318349394477056) (by norm_num) (by norm_num) (by norm_num)
      (by norm_num) (by norm_num))
  have b2 : (⟨-26⟩ * ⟨-13⟩ : Dbl) = ⟨338⟩ :=
    dbl_mul _ _ _ (rnd_pos _ _ 8 5946158883012608 (by norm_num) (by norm_num) (by norm_num)
      (by norm_num) (by norm_num))
  have b3 : (⟨338⟩ * ⟨-13⟩ : Dbl) = ⟨-4394⟩ :=
    dbl_mul _ _ _ (rnd_neg _ _ 12 (-4831254092447744) (by norm_num) (by norm_num) (by norm_num)
      (by norm_num) (by norm_num))
  have b4 : (⟨9⟩ * ⟨-13⟩ : Dbl) = ⟨-117⟩ :=
    dbl_mul _ _ _ (rnd_neg _ _ 6 (-8233143068786688) (by norm_num) (by norm_num) (by norm_num)
      (by norm_num) (by norm_num))
  have b5 : (⟨-117⟩ * ⟨0⟩ : Dbl) = ⟨0⟩ :=
    dbl_mul _ _ _ (rnd_of_zero _ (by norm_num))
  have b6 : (⟨-4394⟩ - ⟨0⟩ : Dbl) = ⟨-4394⟩ :=
    dbl_sub _ _ _ (rnd_neg _ _ 12 (-4831254092447744) (by norm_num) (by norm_num) (by norm_num)
      (by norm_num) (by norm_num))
  have b7 : (⟨27⟩ * ⟨0⟩ : Dbl) = ⟨0⟩ :=
    dbl_mul _ _ _ (rnd_of_zero _ (by norm_num))
  have b8 : (⟨-4394⟩ + ⟨0⟩ : Dbl) = ⟨-4394⟩ :=
    dbl_add _ _ _ (rnd_neg _ _ 12 (-4831254092447744) (by norm_num) (by norm_num) (by norm_num)
      (by norm_num) (by norm_num))
  have b : (⟨-4394⟩ / ⟨27⟩ : Dbl) = ⟨-5725930776234363 / 2 ^ 45⟩ :=
    dbl_div _ _ _ (rnd_neg _ _ 7 (-5725930776234363) (by norm_num) (by norm_num) (by norm_num)
      (by norm_num) (by norm_num))
  have t1 : (⟨-5725930776234363 / 2 ^ 45⟩ * ⟨-5725930776234363 / 2 ^ 45⟩ : Dbl) = ⟨3640008656072597 / 2 ^ 37⟩ :=
    dbl_mul _ _ _ (rnd_pos _ _ 14 7280017312145194 (by norm_num) (by norm_num) (by norm_num)
      (by norm_num) (by norm_num))
  have t2 : (⟨3640008656072597 / 2 ^ 37⟩ / ⟨4⟩ : Dbl) = ⟨3640008656072597 / 2 ^ 39⟩ :=
    dbl_div _ _ _ (rnd_pos _ _ 12 7280017312145194 (by norm_num) (by norm_num) (by norm_num)
      (by norm_num) (by norm_num))
  have t3 : (⟨-7928211844016811 / 2 ^ 47⟩ * ⟨-7928211844016811 / 2 ^ 47⟩ : Dbl) = ⟨6978478133535631 / 2 ^ 41⟩ :=
    dbl_mul _ _ _ (rnd_pos _ _ 11 6978478133535631 (by norm_num) (by norm_num) (by norm_num)
      (by norm_num) (by norm_num))
  have t4 : (⟨6978478133535631 / 2 ^ 41⟩ * ⟨-7928211844016811 / 2 ^ 47⟩ : Dbl) = ⟨-6142514607122509 / 2 ^ 35⟩ :=
    dbl_mul _ _ _ (rnd_neg _ _ 17 (-6142514607122509) (by norm_num) (by norm_num) (by norm_num)
      (by norm_num) (by norm_num))
  have t5 : (⟨-6142514607122509 / 2 ^ 35⟩ / ⟨27⟩ : Dbl) = ⟨-1820004328036299 / 2 ^ 38⟩ :=
    dbl_div _ _ _ (rnd_neg _ _ 12 (-7280017312145196) (by norm_num) (by norm_num) (by norm_num)
      (by norm_num) (by norm_num))
  have t : (⟨3640008656072597 / 2 ^ 39⟩ + ⟨-1820004328036299 / 2 ^ 38⟩ : Dbl) = ⟨-1 / 2 ^ 39⟩ :=
    dbl_add _ _ _ (rnd_neg _ _ (-39) (-4503599627370496) (by norm_num) (by norm_num) (by norm_num)
      (by norm_num) (by norm_num))
  simp only [depress, lit_three, lit_two, lit_nine, lit_twenty_seven, lit_four, p, q, pp, pp3, a, b1, b2, b3, b4, b5, b6, b7, b8, b, t1, t2, t3, t4, t5, t]

/-- Line 97 on doubles at the `a` of the run (1, -13, 0, 0): the rounded `rho`
is exactly `-b/2`. -/
theorem trig_rho_doubles_1_m13_0_0 :
    trig_rho (⟨-7928211844016811 / 2 ^ 47⟩ : Dbl) = ⟨5725930776234363 / 2 ^ 46⟩ := by
  have na : (-⟨-7928211844016811 / 2 ^ 47⟩ : Dbl) = ⟨7928211844016811 / 2 ^ 47⟩ :=
    dbl_neg _ _ (by norm_num)
  have pw : (Libm.pow ⟨7928211844016811 / 2 ^ 47⟩ ⟨3 / 2 ^ 1⟩ : Dbl) = ⟨7438202268795163 / 2 ^ 44⟩ :=
    dbl_pow _ _ _ (rnd_rpow_three_halves _ _ 8 7438202268795163 (by norm_num) (by norm_num)
      (by norm_num) (by norm_num) (by norm_num) (by norm_num) (by norm_num))
  have sq : (Libm.sqrt ⟨27⟩ : Dbl) = ⟨45705840067699 / 2 ^ 43⟩ :=
    dbl_sqrt _ _ (rnd_sqrt _ _ 2 5850347528665472 (by norm_num) (by norm_num)
      (by norm_num) (by norm_num) (by norm_num) (by norm_num))
  have rho : (⟨7438202268795163 / 2 ^ 44⟩ / ⟨45705840067699 / 2 ^ 43⟩ : Dbl) = ⟨5725930776234363 / 2 ^ 46⟩ :=
    dbl_div _ _ _ (rnd_pos _ _ 6 5725930776234363 (by norm_num) (by norm_num) (by norm_num)
      (by norm_num) (by norm_num))
  simp only [trig_rho, lit_three_halves, lit_twenty_seven, lit_two, na, pw, sq, rho]

/-- Line 98 on doubles in the run (1, -13, 0, 0): the argument of `acos` is
exactly `-1`, so `theta` is the double nearest to `π`. -/
theorem trig_theta_doubles_1_m13_0_0 :
    trig_theta (⟨-7928211844016811 / 2 ^ 47⟩ : Dbl) ⟨-5725930776234363 / 2 ^ 45⟩ = ⟨884279719003555 / 2 ^ 48⟩ := by
  have arg1 : (⟨-5725930776234363 / 2 ^ 45⟩ / ⟨5725930776234363 / 2 ^ 46⟩ : Dbl) = ⟨-2⟩ :=
    dbl_div _ _ _ (rnd_neg _ _ 1 (-4503599627370496) (by norm_num) (by norm_num) (by norm_num)
      (by norm_num) (by norm_num))
  have arg : (⟨-2⟩ / ⟨2⟩ : Dbl) = ⟨-1⟩ :=
    dbl_div _ _ _ (rnd_neg _ _ 0 (-4503599627370496) (by norm_num) (by norm_num) (by norm_num)
      (by norm_num) (by norm_num))
  have hacos : (Libm.acos ⟨-1⟩ : Dbl) = ⟨884279719003555 / 2 ^ 48⟩ :=
    dbl_acos _ _ (by rw [Real.arccos_neg_one]; exact rnd_pi)
  simp only [trig_theta, trig_rho_doubles_1_m13_0_0, lit_two, arg1, arg, hacos]

/-- Lines 100 and 102 on doubles with `theta` the double nearest to `π`: the
angles `theta / 3.0` and `(4.0 * Pi + theta) / 3.0` are doubles just below `π/3`
and just above `5π/3`, and their cosines round to the same double
`1/2 + 2^-53`. -/
theorem cos_doubles_theta_pi :
    Libm.cos ((⟨884279719003555 / 2 ^ 48⟩ : Dbl) / 3.0) = ⟨4503599627370497 / 2 ^ 53⟩ ∧
    Libm.cos ((4.0 * Libm.Pi + (⟨884279719003555 / 2 ^ 48⟩ : Dbl)) / 3.0) = ⟨4503599627370497 / 2 ^ 53⟩ := by
  have x1 : (⟨884279719003555 / 2 ^ 48⟩ / ⟨3⟩ : Dbl) = ⟨4716158501352293 / 2 ^ 52⟩ :=
    dbl_div _ _ _ (rnd_pos _ _ 0 4716158501352293 (by norm_num) (by norm_num) (by norm_num)
      (by norm_num) (by norm_num))
  have p4 : (⟨4⟩ * ⟨884279719003555 / 2 ^ 48⟩ : Dbl) = ⟨884279719003555 / 2 ^ 46⟩ :=
    dbl_mul _ _ _ (rnd_pos _ _ 3 7074237752028440 (by norm_num) (by norm_num) (by norm_num)
      (by norm_num) (by norm_num))
  have p5 : (⟨884279719003555 / 2 ^ 46⟩ + ⟨884279719003555 / 2 ^ 48⟩ : Dbl) = ⟨4421398595017775 / 2 ^ 48⟩ :=
    dbl_add _ _ _ (rnd_pos _ _ 3 8842797190035550 (by norm_num) (by norm_num) (by norm_num)
      (by norm_num) (by norm_num))
  have x3 : (⟨4421398595017775 / 2 ^ 48⟩ / ⟨3⟩ : Dbl) = ⟨5895198126690367 / 2 ^ 50⟩ :=
    dbl_div _ _ _ (rnd_pos _ _ 2 5895198126690367 (by norm_num) (by norm_num) (by norm_num)
      (by norm_num) (by norm_num))
  have hlo := Real.pi_gt_d20
  have hhi := Real.pi_lt_d20
  have c1 : (Libm.cos ⟨4716158501352293 / 2 ^ 52⟩ : Dbl) = ⟨4503599627370497 / 2 ^ 53⟩ :=
    dbl_cos _ _ (rnd_cos_below_third _ (by norm_num at hlo ⊢; linarith)
      (by norm_num at hhi ⊢; linarith))
  have c3 : (Libm.cos ⟨5895198126690367 / 2 ^ 50⟩ : Dbl) = ⟨4503599627370497 / 2 ^ 53⟩ :=
    dbl_cos _ _ (rnd_cos_above_five_thirds _ (by norm_num at hhi ⊢; linarith)
      (by norm_num at hlo ⊢; linarith))
  simp only [dbl_Pi, lit_three, lit_four, lit_pi, x1, p4, p5, x3, c1, c3, and_self]

/-- On doubles, when the branch test `t < 0.0` succeeds the solver returns the
roots of the trigonometric branch. -/
theorem solve_doubles_neg (o p q r : Dbl) (h : (depress o p q r).t < 0.0) :
    solve o p q r = trig (depress o p q r).a (depress o p q r).b := by
  simp only [solve, if_pos h]

/-- On doubles, equal cosines at lines 100 and 102 give equal `root_1` and
`root_3`. -/
theorem trig_doubles_root_1_eq_root_3 (a b : Dbl)
    (h : Libm.cos (trig_theta a b / 3.0) = Libm.cos ((4.0 * Libm.Pi + trig_theta a b) / 3.0)) :
    (trig a b).root_1 = (trig a b).root_3 := by
  show Complex (Libm.cos (trig_theta a b / 3.0) * _) 0.0 =
    Complex (Libm.cos ((4.0 * Libm.Pi + trig_theta a b) / 3.0) * _) 0.0
  rw [h]

/-- The run of lines 81-92 on the doubles of the arguments
`3 -4 -3.6666666666666665 -0.66666666666666663`, operation by operation; the
rounded `t` comes out as `-2^-55`. -/
theorem depress_doubles_nan_run :
    depress (⟨3⟩ : Dbl) ⟨-4⟩ (-3.6666666666666665) (-0.66666666666666663) =
      { p := ⟨-6004799503160661 / 2 ^ 52⟩, q := ⟨-5504399544563939 / 2 ^ 52⟩,
        r := ⟨-2001599834386887 / 2 ^ 53⟩,
        a := ⟨-8173199323746455 / 2 ^ 52⟩, b := ⟨-4237955204905569 / 2 ^ 52⟩,
        t := ⟨-1 / 2 ^ 55⟩ } := by
  have lq : (3.6666666666666665 : Dbl) = ⟨8256599316845909 / 2 ^ 51⟩ :=
    dbl_lit _ _ _ _ (rnd_pos _ _ 1 8256599316845909 (by norm_num) (by norm_num) (by norm_num)
      (by norm_num) (by norm_num))
  have nq : (-⟨8256599316845909 / 2 ^ 51⟩ : Dbl) = ⟨-8256599316845909 / 2 ^ 51⟩ :=
    dbl_neg _ _ (by norm_num)
  have lr : (0.66666666666666663 : Dbl) = ⟨6004799503160661 / 2 ^ 53⟩ :=
    dbl_lit _ _ _ _ (rnd_pos _ _ (-1) 6004799503160661 (by norm_num) (by norm_num) (by norm_num)
      (by norm_num) (by norm_num))
  have nr : (-⟨6004799503160661 / 2 ^ 53⟩ : Dbl) = ⟨-6004799503160661 / 2 ^ 53⟩ :=
    dbl_neg _ _ (by norm_num)
  have p : (⟨-4⟩ / ⟨3⟩ : Dbl) = ⟨-6004799503160661 / 2 ^ 52⟩ :=
    dbl_div _ _ _ (rnd_neg _ _ 0 (-6004799503160661) (by norm_num) (by norm_num) (by norm_num)
      (by norm_num) (by norm_num))
  have q : (⟨-8256599316845909 / 2 ^ 51⟩ / ⟨3⟩ : Dbl) = ⟨-5504399544563939 / 2 ^ 52⟩ :=
    dbl_div _ _ _ (rnd_neg _ _ 0 (-5504399544563939) (by norm_num) (by norm_num) (by norm_num)
      (by norm_num) (by norm_num))
  have r : (⟨-6004799503160661 / 2 ^ 53⟩ / ⟨3⟩ : Dbl) = ⟨-2001599834386887 / 2 ^ 53⟩ :=
    dbl_div _ _ _ (rnd_neg _ _ (-3) (-8006399337547548) (by norm_num) (by norm_num) (by norm_num)
      (by norm_num) (by norm_num))
  have pp : (⟨-6004799503160661 / 2 ^ 52⟩ * ⟨-6004799503160661 / 2 ^ 52⟩ : Dbl) = ⟨2001599834386887 / 2 ^ 50⟩ :=
    dbl_mul _ _ _ (rnd_pos _ _ 0 8006399337547548 (by norm_num) (by norm_num) (by norm_num)
      (by norm_num) (by norm_num))
  have pp3 : (⟨2001599834386887 / 2 ^ 50⟩ / ⟨3⟩ : Dbl) = ⟨667199944795629 / 2 ^ 50⟩ :=
    dbl_div _ _ _ (rnd_pos _ _ (-1) 5337599558365032 (by norm_num) (by norm_num) (by norm_num)
      (by norm_num) (by norm_num))
  have a : (⟨-5504399544563939 / 2 ^ 52⟩ - ⟨667199944795629 / 2 ^ 50⟩ : Dbl) = ⟨-8173199323746455 / 2 ^ 52⟩ :=
    dbl_sub _ _ _ (rnd_neg _ _ 0 (-8173199323746455) (by norm_num) (by norm_num) (by norm_num)
      (by norm_num) (by norm_num))
  have b1 : (⟨2⟩ * ⟨-6004799503160661 / 2 ^ 52⟩ : Dbl) = ⟨-6004799503160661 / 2 ^ 51⟩ :=
    dbl_mul _ _ _ (rnd_neg _ _ 1 (-6004799503160661) (by norm_num) (by norm_num) (by norm_num)
      (by norm_num) (by norm_num))
  have b2 : (⟨-6004799503160661 / 2 ^ 51⟩ * ⟨-6004799503160661 / 2 ^ 52⟩ : Dbl) = ⟨2001599834386887 / 2 ^ 49⟩ :=
    dbl_mul _ _ _ (rnd_pos _ _ 1 8006399337547548 (by norm_num) (by norm_num) (by norm_num)
      (by norm_num) (by norm_num))
  have b3 : (⟨2001599834386887 / 2 ^ 49⟩ * ⟨-6004799503160661 / 2 ^ 52⟩ : Dbl) = ⟨-667199944795629 / 2 ^ 47⟩ :=
    dbl_mul _ _ _ (rnd_neg _ _ 2 (-5337599558365032) (by norm_num) (by norm_num) (by norm_num)
      (by norm_num) (by norm_num))
  have b4 : (⟨9⟩ * ⟨-6004799503160661 / 2 ^ 52⟩ : Dbl) = ⟨-12⟩ :=
    dbl_mul _ _ _ (rnd_neg _ _ 3 (-6755399441055744) (by norm_num) (by norm_num) (by norm_num)
      (by norm_num) (by norm_num))
  have b5 : (⟨-12⟩ * ⟨-5504399544563939 / 2 ^ 52⟩ : Dbl) = ⟨2064149829211477 / 2 ^ 47⟩ :=
    dbl_mul _ _ _ (rnd_tie _ _ 3 8256599316845908 (by norm_num) ⟨4128299658422954, by norm_num⟩
      (by rw [abs_of_pos (by norm_num)]; norm_num) (by rw [abs_of_pos (by norm_num)]; norm_num)
      (by norm_num))
  have b6 : (⟨-667199944795629 / 2 ^ 47⟩ - ⟨2064149829211477 / 2 ^ 47⟩ : Dbl) = ⟨-1365674887003553 / 2 ^ 46⟩ :=
    dbl_sub _ _ _ (rnd_neg _ _ 4 (-5462699548014212) (by norm_num) (by norm_num) (by norm_num)
      (by norm_num) (by norm_num))
  have b7 : (⟨27⟩ * ⟨-2001599834386887 / 2 ^ 53⟩ : Dbl) = ⟨-6⟩ :=
    dbl_mul _ _ _ (rnd_neg _ _ 2 (-6755399441055744) (by norm_num) (by norm_num) (by norm_num)
      (by norm_num) (by norm_num))
  have b8 : (⟨-1365674887003553 / 2 ^ 46⟩ + ⟨-6⟩ : Dbl) = ⟨-1787887352069537 / 2 ^ 46⟩ :=
    dbl_add _ _ _ (rnd_neg _ _ 4 (-7151549408278148) (by norm_num) (by norm_num) (by norm_num)
      (by norm_num) (by norm_num))
  have b : (⟨-1787887352069537 / 2 ^ 46⟩ / ⟨27⟩ : Dbl) = ⟨-4237955204905569 / 2 ^ 52⟩ :=
    dbl_div _ _ _ (rnd_neg _ _ (-1) (-8475910409811138) (by norm_num) (by norm_num) (by norm_num)
      (by norm_num) (by norm_num))
  have t1 : (⟨-4237955204905569 / 2 ^ 52⟩ * ⟨-4237955204905569 / 2 ^ 52⟩ : Dbl) = ⟨3987979795014019 / 2 ^ 52⟩ :=
    dbl_mul _ _ _ (rnd_pos _ _ (-1) 7975959590028038 (by norm_num) (by norm_num) (by norm_num)
      (by norm_num) (by norm_num))
  have t2 : (⟨3987979795014019 / 2 ^ 52⟩ / ⟨4⟩ : Dbl) = ⟨3987979795014019 / 2 ^ 54⟩ :=
    dbl_div _ _ _ (rnd_pos _ _ (-3) 7975959590028038 (by norm_num) (by norm_num) (by norm_num)
      (by norm_num) (by norm_num))
  have t3 : (⟨-8173199323746455 / 2 ^ 52⟩ * ⟨-8173199323746455 / 2 ^ 52⟩ : Dbl) = ⟨3708210804292373 / 2 ^ 50⟩ :=
    dbl_mul _ _ _ (rnd_pos _ _ 1 7416421608584746 (by norm_num) (by norm_num) (by norm_num)
      (by norm_num) (by norm_num))
  have t4 : (⟨3708210804292373 / 2 ^ 50⟩ * ⟨-8173199323746455 / 2 ^ 52⟩ : Dbl) = ⟨-3364857952043079 / 2 ^ 49⟩ :=
    dbl_mul _ _ _ (rnd_neg _ _ 2 (-6729715904086158) (by norm_num) (by norm_num) (by norm_num)
      (by norm_num) (by norm_num))
  have t5 : (⟨-3364857952043079 / 2 ^ 49⟩ / ⟨27⟩ : Dbl) = ⟨-7975959590028039 / 2 ^ 55⟩ :=
    dbl_div _ _ _ (rnd_neg _ _ (-3) (-7975959590028039) (by norm_num) (by norm_num) (by norm_num)
      (by norm_num) (by norm_num))
  have t : (⟨3987979795014019 / 2 ^ 54⟩ + ⟨-7975959590028039 / 2 ^ 55⟩ : Dbl) = ⟨-1 / 2 ^ 55⟩ :=
    dbl_add _ _ _ (rnd_neg _ _ (-55) (-4503599627370496) (by norm_num) (by norm_num) (by norm_num)
      (by norm_num) (by norm_num))
  simp only [depress, lq, nq, lr, nr, lit_three, lit_two, lit_nine, lit_twenty_seven, lit_four, p, q, r, pp, pp3, a, b1, b2, b3, b4, b5, b6, b7, b8, b, t1, t2, t3, t4, t5, t]

/-- Line 97 on doubles at the `a` of that run. -/
theorem trig_rho_doubles_nan_run :
    trig_rho (⟨-8173199323746455 / 2 ^ 52⟩ : Dbl) = ⟨8475910409811137 / 2 ^ 54⟩ := by
  have na : (-⟨-8173199323746455 / 2 ^ 52⟩ : Dbl) = ⟨8173199323746455 / 2 ^ 52⟩ :=
    dbl_neg _ _ (by norm_num)
  have pw : (Libm.pow ⟨8173199323746455 / 2 ^ 52⟩ ⟨3 / 2 ^ 1⟩ : Dbl) = ⟨5505265301323063 / 2 ^ 51⟩ :=
    dbl_pow _ _ _ (rnd_rpow_three_halves _ _ 1 5505265301323063 (by norm_num) (by norm_num)
      (by norm_num) (by norm_num) (by norm_num) (by norm_num) (by norm_num))
  have sq : (Libm.sqrt ⟨27⟩ : Dbl) = ⟨45705840067699 / 2 ^ 43⟩ :=
    dbl_sqrt _ _ (rnd_sqrt _ _ 2 5850347528665472 (by norm_num) (by norm_num)
      (by norm_num) (by norm_num) (by norm_num) (by norm_num))
  have rho : (⟨5505265301323063 / 2 ^ 51⟩ / ⟨45705840067699 / 2 ^ 43⟩ : Dbl) = ⟨8475910409811137 / 2 ^ 54⟩ :=
    dbl_div _ _ _ (rnd_pos _ _ (-2) 8475910409811137 (by norm_num) (by norm_num) (by norm_num)
      (by norm_num) (by norm_num))
  simp only [trig_rho, lit_three_halves, lit_twenty_seven, lit_two, na, pw, sq, rho]

/-- The argument `b / rho / 2.0` of `acos` on line 98 in that run is the double
`-(1 + 2^-52)`. -/
theorem acos_arg_doubles_nan_run :
    (⟨-4237955204905569 / 2 ^ 52⟩ / ⟨8475910409811137 / 2 ^ 54⟩ / 2.0 : Dbl) =
      ⟨-4503599627370497 / 2 ^ 52⟩ := by
  have arg1 : (⟨-4237955204905569 / 2 ^ 52⟩ / ⟨8475910409811137 / 2 ^ 54⟩ : Dbl) = ⟨-4503599627370497 / 2 ^ 51⟩ :=
    dbl_div _ _ _ (rnd_neg _ _ 1 (-4503599627370497) (by norm_num) (by norm_num) (by norm_num)
      (by norm_num) (by norm_num))
  have arg : (⟨-4503599627370497 / 2 ^ 51⟩ / ⟨2⟩ : Dbl) = ⟨-4503599627370497 / 2 ^ 52⟩ :=
    dbl_div _ _ _ (rnd_neg _ _ 0 (-4503599627370497) (by norm_num) (by norm_num) (by norm_num)
      (by norm_num) (by norm_num))
  simp only [lit_two, arg1, arg]

/-! ## The claims -/

/-- C1: for real coefficients with `c3 ≠ 0`, each of the three roots the program
reports (root_k with p/3 subtracted from its real part, read as the complex
number real + imag·i) is a zero of `c3·z³ + c2·z² + c1·z + c0`, in exact real
arithmetic; both branches of the solver are covered. -/
theorem C1_roots_are_zeros (c3 c2 c1 c0 : ℝ) (h3 : c3 ≠ 0) :
    ∀ z ∈ [toC (roots c3 c2 c1 c0).root_1, toC (roots c3 c2 c1 c0).root_2,
        toC (roots c3 c2 c1 c0).root_3],
      (c3 : ℂ) * z ^ 3 + c2 * z ^ 2 + c1 * z + c0 = 0 := by
  intro z hz
  rw [roots_factor c3 c2 c1 c0 h3 z]
  simp only [List.mem_cons, List.mem_singleton, List.not_mem_nil, or_false] at hz
  rcases hz with rfl | rfl | rfl <;> simp

/-- Witness for C1 at the coefficients (1, -6, 11, -6), which take the
trigonometric branch. -/
theorem C1_roots_are_zeros_witness :
    (1 : ℝ) ≠ 0 ∧
    ∀ z ∈ [toC (roots (1 : ℝ) (-6) 11 (-6)).root_1, toC (roots (1 : ℝ) (-6) 11 (-6)).root_2,
        toC (roots (1 : ℝ) (-6) 11 (-6)).root_3],
      ((1 : ℝ) : ℂ) * z ^ 3 + ((-6 : ℝ) : ℂ) * z ^ 2 + ((11 : ℝ) : ℂ) * z + ((-6 : ℝ) : ℂ) = 0 :=
  ⟨one_ne_zero, C1_roots_are_zeros 1 (-6) 11 (-6) one_ne_zero⟩

/-- C2: for real coefficients with `c3 ≠ 0`, the three reported roots sum to
`-c2/c3` as complex numbers: the real parts sum to `-c2/c3` and the imaginary
parts sum to `0`. -/
theorem C2_sum_of_roots (c3 c2 c1 c0 : ℝ) (_h3 : c3 ≠ 0) :
    toC (roots c3 c2 c1 c0).root_1 + toC (roots c3 c2 c1 c0).root_2 +
        toC (roots c3 c2 c1 c0).root_3 = ((-c2 / c3 : ℝ) : ℂ) ∧
    (roots c3 c2 c1 c0).root_1.real + (roots c3 c2 c1 c0).root_2.real +
        (roots c3 c2 c1 c0).root_3.real = -c2 / c3 ∧
    (roots c3 c2 c1 c0).root_1.imag + (roots c3 c2 c1 c0).root_2.imag +
        (roots c3 c2 c1 c0).root_3.imag = 0 := by
  have h : toC (roots c3 c2 c1 c0).root_1 + toC (roots c3 c2 c1 c0).root_2 +
        toC (roots c3 c2 c1 c0).root_3 = ((-c2 / c3 : ℝ) : ℂ) := by
    rw [toC_root_1, toC_root_2, toC_root_3]
    push_cast
    linear_combination (solve_vieta c3 c2 c1 c0).1
  refine ⟨h, ?_, ?_⟩
  · have := congrArg Complex.re h
    simpa [toC] using this
  · have := congrArg Complex.im h
    simpa [toC] using this

/-- Witness for C2 at the coefficients (1, 0, 0, -8), which take the Cardano
branch with a conjugate pair. -/
theorem C2_sum_of_roots_witness :
    (1 : ℝ) ≠ 0 ∧
    (toC (roots (1 : ℝ) 0 0 (-8)).root_1 + toC (roots (1 : ℝ) 0 0 (-8)).root_2 +
        toC (roots (1 : ℝ) 0 0 (-8)).root_3 = ((-0 / 1 : ℝ) : ℂ) ∧
    (roots (1 : ℝ) 0 0 (-8)).root_1.real + (roots (1 : ℝ) 0 0 (-8)).root_2.real +
        (roots (1 : ℝ) 0 0 (-8)).root_3.real = -0 / 1 ∧
    (roots (1 : ℝ) 0 0 (-8)).root_1.imag + (roots (1 : ℝ) 0 0 (-8)).root_2.imag +
        (roots (1 : ℝ) 0 0 (-8)).root_3.imag = 0) :=
  ⟨one_ne_zero, C2_sum_of_roots 1 0 0 (-8) one_ne_zero⟩

/-- C3: for real coefficients with `c3 ≠ 0`, the complex product of the three
reported roots is `-c0/c3`: its real part is `-c0/c3` and its imaginary part
is `0`. -/
theorem C3_product_of_roots (c3 c2 c1 c0 : ℝ) (h3 : c3 ≠ 0) :
    toC (roots c3 c2 c1 c0).root_1 * toC (roots c3 c2 c1 c0).root_2 *
        toC (roots c3 c2 c1 c0).root_3 = ((-c0 / c3 : ℝ) : ℂ) ∧
    (toC (roots c3 c2 c1 c0).root_1 * toC (roots c3 c2 c1 c0).root_2 *
        toC (roots c3 c2 c1 c0).root_3).re = -c0 / c3 ∧
    (toC (roots c3 c2 c1 c0).root_1 * toC (roots c3 c2 c1 c0).root_2 *
        toC (roots c3 c2 c1 c0).root_3).im = 0 := by
  have h : toC (roots c3 c2 c1 c0).root_1 * toC (roots c3 c2 c1 c0).root_2 *
        toC (roots c3 c2 c1 c0).root_3 = ((-c0 / c3 : ℝ) : ℂ) := by
    have hf := roots_factor c3 c2 c1 c0 h3 0
    have hc : (c3 : ℂ) ≠ 0 := by exact_mod_cast h3
    push_cast
    field_simp
    linear_combination hf
  refine ⟨h, ?_, ?_⟩
  · rw [h]; simp
  · rw [h]; simp

/-- Witness for C3 at the coefficients (2, 0, 0, -16). -/
theorem C3_product_of_roots_witness :
    (2 : ℝ) ≠ 0 ∧
    (toC (roots (2 : ℝ) 0 0 (-16)).root_1 * toC (roots (2 : ℝ) 0 0 (-16)).root_2 *
        toC (roots (2 : ℝ) 0 0 (-16)).root_3 = ((-(-16) / 2 : ℝ) : ℂ) ∧
    (toC (roots (2 : ℝ) 0 0 (-16)).root_1 * toC (roots (2 : ℝ) 0 0 (-16)).root_2 *
        toC (roots (2 : ℝ) 0 0 (-16)).root_3).re = -(-16) / 2 ∧
    (toC (roots (2 : ℝ) 0 0 (-16)).root_1 * toC (roots (2 : ℝ) 0 0 (-16)).root_2 *
        toC (roots (2 : ℝ) 0 0 (-16)).root_3).im = 0) :=
  ⟨two_ne_zero, C3_product_of_roots 2 0 0 (-16) two_ne_zero⟩

/-- C4, as amended: in exact real arithmetic (doubles read as reals, `Pi` as
`π`), for real coefficients with `c3 ≠ 0` whose discriminant quantity
`t = b²/4 + a³/27` (with `a`, `b` as the code computes them) is negative, all
three reported roots have imaginary part exactly `0` and their real parts are
pairwise distinct.  On the program's doubles the distinctness can fail: the
rounded `t` of a cubic with a repeated root can be negative. -/
theorem C4_three_distinct_real_roots (c3 c2 c1 c0 : ℝ) (_h3 : c3 ≠ 0)
    (ht : (depress c3 c2 c1 c0).t < 0) :
    ((roots c3 c2 c1 c0).root_1.imag = 0 ∧ (roots c3 c2 c1 c0).root_2.imag = 0 ∧
      (roots c3 c2 c1 c0).root_3.imag = 0) ∧
    (roots c3 c2 c1 c0).root_1.real ≠ (roots c3 c2 c1 c0).root_2.real ∧
    (roots c3 c2 c1 c0).root_1.real ≠ (roots c3 c2 c1 c0).root_3.real ∧
    (roots c3 c2 c1 c0).root_2.real ≠ (roots c3 c2 c1 c0).root_3.real := by
  have ht2 : (depress c3 c2 c1 c0).b * (depress c3 c2 c1 c0).b / 4 +
      (depress c3 c2 c1 c0).a * (depress c3 c2 c1 c0).a * (depress c3 c2 c1 c0).a / 27 < 0 := by
    rw [← depress_t]; exact ht
  obtain ⟨o1, o2⟩ := trig_order _ _ ht2
  obtain ⟨i1, i2, i3⟩ := trig_imag (depress c3 c2 c1 c0).a (depress c3 c2 c1 c0).b
  rw [roots_root_1, roots_root_2, roots_root_3, solve_neg c3 c2 c1 c0 ht]
  simp only
  refine ⟨⟨i1, i2, i3⟩, ?_, ?_, ?_⟩
  · intro h; linarith
  · intro h; linarith
  · intro h; linarith

/-- Witness for C4 at the coefficients (1, -6, 11, -6), where `t = -1/27`. -/
theorem C4_three_distinct_real_roots_witness :
    ((1 : ℝ) ≠ 0 ∧ (depress (1 : ℝ) (-6) 11 (-6)).t < 0) ∧
    (((roots (1 : ℝ) (-6) 11 (-6)).root_1.imag = 0 ∧ (roots (1 : ℝ) (-6) 11 (-6)).root_2.imag = 0 ∧
      (roots (1 : ℝ) (-6) 11 (-6)).root_3.imag = 0) ∧
    (roots (1 : ℝ) (-6) 11 (-6)).root_1.real ≠ (roots (1 : ℝ) (-6) 11 (-6)).root_2.real ∧
    (roots (1 : ℝ) (-6) 11 (-6)).root_1.real ≠ (roots (1 : ℝ) (-6) 11 (-6)).root_3.real ∧
    (roots (1 : ℝ) (-6) 11 (-6)).root_2.real ≠ (roots (1 : ℝ) (-6) 11 (-6)).root_3.real) :=
  ⟨⟨one_ne_zero, by rw [depress_t, depress_a, depress_b]; norm_num⟩,
    C4_three_distinct_real_roots 1 (-6) 11 (-6) one_ne_zero
      (by rw [depress_t, depress_a, depress_b]; norm_num)⟩

/-- Counterexample to C4 as stated of the program's doubles.  On the
coefficients (1, -13, 0, 0), the cubic `x²(x - 13)` with a double root, IEEE
double arithmetic computes `t = -2^-39 < 0`, so the trigonometric branch is
taken, and the reported real parts of root_1 and root_3 are the same double:
the real parts are not pairwise distinct. -/
theorem C4_counterexample_doubles :
    (⟨1⟩ : Dbl).val ≠ 0 ∧
    (depress (⟨1⟩ : Dbl) ⟨-13⟩ ⟨0⟩ ⟨0⟩).t < 0.0 ∧
    (roots (⟨1⟩ : Dbl) ⟨-13⟩ ⟨0⟩ ⟨0⟩).root_1.real =
      (roots (⟨1⟩ : Dbl) ⟨-13⟩ ⟨0⟩ ⟨0⟩).root_3.real := by
  have ht : (depress (⟨1⟩ : Dbl) ⟨-13⟩ ⟨0⟩ ⟨0⟩).t < 0.0 := by
    rw [depress_doubles_1_m13_0_0, lit_zero]
    show (-1 / 2 ^ 39 : ℝ) < 0
    norm_num
  have hroot : (solve (⟨1⟩ : Dbl) ⟨-13⟩ ⟨0⟩ ⟨0⟩).root_1 =
      (solve (⟨1⟩ : Dbl) ⟨-13⟩ ⟨0⟩ ⟨0⟩).root_3 := by
    rw [solve_doubles_neg _ _ _ _ ht]
    apply trig_doubles_root_1_eq_root_3
    rw [depress_doubles_1_m13_0_0]
    simp only [trig_theta_doubles_1_m13_0_0]
    rw [cos_doubles_theta_pi.1, cos_doubles_theta_pi.2]
  refine ⟨by norm_num, ht, ?_⟩
  simp only [roots, hroot]

/-- C5: for real coefficients with `c3 ≠ 0` and `t = b²/4 + a³/27 > 0`, exactly
one of the three reported roots has imaginary part `0` (it is root_1), and the
other two are complex conjugates of each other: equal real parts, imaginary
parts that are negatives of each other and non-zero. -/
theorem C5_one_real_and_a_conjugate_pair (c3 c2 c1 c0 : ℝ) (_h3 : c3 ≠ 0)
    (ht : 0 < (depress c3 c2 c1 c0).t) :
    ((roots c3 c2 c1 c0).root_1.imag = 0 ∧ (roots c3 c2 c1 c0).root_2.imag ≠ 0 ∧
      (roots c3 c2 c1 c0).root_3.imag ≠ 0) ∧
    (roots c3 c2 c1 c0).root_2.real = (roots c3 c2 c1 c0).root_3.real ∧
    (roots c3 c2 c1 c0).root_2.imag = -(roots c3 c2 c1 c0).root_3.imag ∧
    toC (roots c3 c2 c1 c0).root_3 = (starRingEnd ℂ) (toC (roots c3 c2 c1 c0).root_2) := by
  have hne := cardano_lm_ne (depress c3 c2 c1 c0).b (depress c3 c2 c1 c0).t ht
  have hk := sqrt3_pos
  rw [roots_root_1, roots_root_2, roots_root_3, solve_nonneg c3 c2 c1 c0 ht.le,
    cardano_root_1, cardano_root_2, cardano_root_3]
  refine ⟨⟨rfl, ?_, ?_⟩, rfl, ?_, ?_⟩
  · exact mul_ne_zero (by positivity) (sub_ne_zero.mpr hne)
  · exact mul_ne_zero (by positivity) (sub_ne_zero.mpr hne.symm)
  · show _ = -(_ * _)
    ring
  · apply Complex.ext
    · rfl
    · simp only [toC, Complex.conj_im]
      ring

/-- Witness for C5 at the coefficients (1, 0, 0, -8), where `t = 16`. -/
theorem C5_one_real_and_a_conjugate_pair_witness :
    ((1 : ℝ) ≠ 0 ∧ 0 < (depress (1 : ℝ) 0 0 (-8)).t) ∧
    (((roots (1 : ℝ) 0 0 (-8)).root_1.imag = 0 ∧ (roots (1 : ℝ) 0 0 (-8)).root_2.imag ≠ 0 ∧
      (roots (1 : ℝ) 0 0 (-8)).root_3.imag ≠ 0) ∧
    (roots (1 : ℝ) 0 0 (-8)).root_2.real = (roots (1 : ℝ) 0 0 (-8)).root_3.real ∧
    (roots (1 : ℝ) 0 0 (-8)).root_2.imag = -(roots (1 : ℝ) 0 0 (-8)).root_3.imag ∧
    toC (roots (1 : ℝ) 0 0 (-8)).root_3 =
      (starRingEnd ℂ) (toC (roots (1 : ℝ) 0 0 (-8)).root_2)) :=
  ⟨⟨one_ne_zero, by rw [depress_t, depress_a, depress_b]; norm_num⟩,
    C5_one_real_and_a_conjugate_pair 1 0 0 (-8) one_ne_zero
      (by rw [depress_t, depress_a, depress_b]; norm_num)⟩

/-- C6: for real coefficients with `c3 ≠ 0` and `t = b²/4 + a³/27 = 0`, all
three reported roots have imaginary part `0` and root_2 equals root_3. -/
theorem C6_repeated_real_root (c3 c2 c1 c0 : ℝ) (_h3 : c3 ≠ 0)
    (ht : (depress c3 c2 c1 c0).t = 0) :
    ((roots c3 c2 c1 c0).root_1.imag = 0 ∧ (roots c3 c2 c1 c0).root_2.imag = 0 ∧
      (roots c3 c2 c1 c0).root_3.imag = 0) ∧
    (roots c3 c2 c1 c0).root_2 = (roots c3 c2 c1 c0).root_3 := by
  have he := cardano_lm_eq (depress c3 c2 c1 c0).b
  rw [roots_root_1, roots_root_2, roots_root_3, solve_nonneg c3 c2 c1 c0 ht.ge,
    cardano_root_1, cardano_root_2, cardano_root_3, ht]
  rw [he, sub_self, mul_zero]
  exact ⟨⟨rfl, rfl, rfl⟩, rfl⟩

/-- Witness for C6 at the coefficients (1, -3, 3, -1), the cube of `x - 1`,
where `t = 0`. -/
theorem C6_repeated_real_root_witness :
    ((1 : ℝ) ≠ 0 ∧ (depress (1 : ℝ) (-3) 3 (-1)).t = 0) ∧
    (((roots (1 : ℝ) (-3) 3 (-1)).root_1.imag = 0 ∧ (roots (1 : ℝ) (-3) 3 (-1)).root_2.imag = 0 ∧
      (roots (1 : ℝ) (-3) 3 (-1)).root_3.imag = 0) ∧
    (roots (1 : ℝ) (-3) 3 (-1)).root_2 = (roots (1 : ℝ) (-3) 3 (-1)).root_3) :=
  ⟨⟨one_ne_zero, by rw [depress_t, depress_a, depress_b]; norm_num⟩,
    C6_repeated_real_root 1 (-3) 3 (-1) one_ne_zero
      (by rw [depress_t, depress_a, depress_b]; norm_num)⟩

/-- C7: for the coefficients (1, -6, 11, -6) the three reported roots all have
imaginary part `0` and their real parts are 1, 2 and 3 in some order (as a
multiset); the order the program produces is 1, 3, 2. -/
theorem C7_roots_of_1_m6_11_m6 :
    ((roots (1 : ℝ) (-6) 11 (-6)).root_1.imag = 0 ∧ (roots (1 : ℝ) (-6) 11 (-6)).root_2.imag = 0 ∧
      (roots (1 : ℝ) (-6) 11 (-6)).root_3.imag = 0) ∧
    (({(roots (1 : ℝ) (-6) 11 (-6)).root_1.real, (roots (1 : ℝ) (-6) 11 (-6)).root_2.real,
        (roots (1 : ℝ) (-6) 11 (-6)).root_3.real} : Multiset ℝ) = {1, 2, 3}) ∧
    ((roots (1 : ℝ) (-6) 11 (-6)).root_1.real = 1 ∧ (roots (1 : ℝ) (-6) 11 (-6)).root_2.real = 3 ∧
      (roots (1 : ℝ) (-6) 11 (-6)).root_3.real = 2) := by
  rw [roots_123]
  refine ⟨⟨rfl, rfl, rfl⟩, ?_, ⟨rfl, rfl, rfl⟩⟩
  show (1 ::ₘ 3 ::ₘ 2 ::ₘ (0 : Multiset ℝ)) = 1 ::ₘ 2 ::ₘ 3 ::ₘ 0
  rw [Multiset.cons_swap 3 2]

/-- C8: for the coefficients (1, 0, 0, -8) the reported roots are the real root
`(2, 0)` and a complex-conjugate pair with real part `-1` and imaginary parts
`-√3` (root_2) and `+√3` (root_3). -/
theorem C8_roots_of_x3_minus_8 :
    (roots (1 : ℝ) 0 0 (-8)).root_1 = ⟨2, 0⟩ ∧
    (roots (1 : ℝ) 0 0 (-8)).root_2 = ⟨-1, -√3⟩ ∧
    (roots (1 : ℝ) 0 0 (-8)).root_3 = ⟨-1, √3⟩ := by
  rw [roots_x3_8]
  exact ⟨rfl, rfl, rfl⟩

/-- C9: for the coefficients (1, 0, 0, 0) the three reported roots are `(0, 0)`,
`(0, 0)`, `(0, 0)`, and the program prints three lines that hold the formatted
real part alone, without an imaginary suffix. -/
theorem C9_roots_of_x3 :
    (roots (1 : ℝ) 0 0 0).root_1 = ⟨0, 0⟩ ∧
    (roots (1 : ℝ) 0 0 0).root_2 = ⟨0, 0⟩ ∧
    (roots (1 : ℝ) 0 0 0).root_3 = ⟨0, 0⟩ ∧
    ∀ fmt : ℝ → String,
      print_roots fmt (roots (1 : ℝ) 0 0 0) = fmt 0 ++ "\n" ++ fmt 0 ++ "\n" ++ fmt 0 ++ "\n" := by
  rw [roots_x3]
  refine ⟨rfl, rfl, rfl, ?_⟩
  intro fmt
  simp [print_roots, print_root]

/-- C10: with argument parsing modelled as `sscanf : String → Option ℝ`: if the
number of coefficient arguments is not 4, or one of the four fails to parse, or
the first coefficient parses to 0, the program calls `exit(1)` and writes
nothing to standard output; in every other case it makes no error exit and
standard output is exactly three newline-terminated root lines (three newline
characters in all when the number format itself emits none). -/
theorem C10_exit_status_and_output (sscanf : String → Option ℝ) (fmt : ℝ → String)
    (argv : List String) :
    ((argv.tail.length ≠ 4 ∨ (∃ s ∈ argv.tail, sscanf s = none) ∨
        (∃ s, argv.tail.head? = some s ∧ sscanf s = some 0)) →
      (main sscanf fmt argv).status = some 1 ∧ (main sscanf fmt argv).stdout = "") ∧
    (¬(argv.tail.length ≠ 4 ∨ (∃ s ∈ argv.tail, sscanf s = none) ∨
        (∃ s, argv.tail.head? = some s ∧ sscanf s = some 0)) →
      (main sscanf fmt argv).status = none ∧
      (∃ o p q r : ℝ, argv.tail.map sscanf = [some o, some p, some q, some r] ∧
        (main sscanf fmt argv).stdout =
          print_root fmt (roots o p q r).root_1 ++ "\n" ++
          print_root fmt (roots o p q r).root_2 ++ "\n" ++
          print_root fmt (roots o p q r).root_3 ++ "\n") ∧
      ((∀ x, '\n' ∉ (fmt x).toList) →
        (main sscanf fmt argv).stdout.toList.count '\n' = 3)) := by
  by_cases hlen : argv.length = 5
  · obtain ⟨s0, s1, s2, s3, s4, rfl⟩ : ∃ s0 s1 s2 s3 s4, argv = [s0, s1, s2, s3, s4] := by
      rcases argv with _ | ⟨s0, _ | ⟨s1, _ | ⟨s2, _ | ⟨s3, _ | ⟨s4, _ | ⟨s5, rest⟩⟩⟩⟩⟩⟩ <;>
        simp at hlen
      exact ⟨s0, s1, s2, s3, s4, rfl⟩
    cases h1 : sscanf s1 with
    | none => simp [main, h1]
    | some o =>
    cases h2 : sscanf s2 with
    | none => simp [main, h1, h2]
    | some p =>
    cases h3 : sscanf s3 with
    | none => simp [main, h1, h2, h3]
    | some q =>
    cases h4 : sscanf s4 with
    | none => simp [main, h1, h2, h3, h4]
    | some r =>
    by_cases ho : o = 0
    · simp [main, h1, h2, h3, h4, ho]
    · rw [main_success sscanf fmt s0 s1 s2 s3 s4 o p q r h1 h2 h3 h4 ho]
      refine ⟨fun hbad => ?_, fun _ => ⟨rfl, ⟨o, p, q, r, ?_, rfl⟩, fun hf => ?_⟩⟩
      · simp [h1, h2, h3, h4, ho] at hbad
      · simp [h1, h2, h3, h4]
      · exact count_nl_print_roots fmt hf _
  · rw [main_usage sscanf fmt argv hlen]
    have ht : argv.tail.length ≠ 4 := by
      rw [List.length_tail]
      omega
    exact ⟨fun _ => ⟨rfl, rfl⟩, fun hgood => absurd (Or.inl ht) hgood⟩

/-- Witness for C10: with no coefficient argument the program exits with status
1 and prints nothing; with four arguments that all parse to 1 it prints the
three roots of `x³ + x² + x + 1`. -/
theorem C10_exit_status_and_output_witness :
    (((["cubic"] : List String).tail.length ≠ 4 ∨
        (∃ s ∈ (["cubic"] : List String).tail, (fun _ => some (1 : ℝ)) s = none) ∨
        (∃ s, (["cubic"] : List String).tail.head? = some s ∧
          (fun _ => some (1 : ℝ)) s = some 0)) ∧
      (main (fun _ => some (1 : ℝ)) (fun _ => "x") ["cubic"]).status = some 1 ∧
      (main (fun _ => some (1 : ℝ)) (fun _ => "x") ["cubic"]).stdout = "") ∧
    (¬((["cubic", "1", "1", "1", "1"] : List String).tail.length ≠ 4 ∨
        (∃ s ∈ (["cubic", "1", "1", "1", "1"] : List String).tail,
          (fun _ => some (1 : ℝ)) s = none) ∨
        (∃ s, (["cubic", "1", "1", "1", "1"] : List String).tail.head? = some s ∧
          (fun _ => some (1 : ℝ)) s = some 0)) ∧
      (main (fun _ => some (1 : ℝ)) (fun _ => "x") ["cubic", "1", "1", "1", "1"]).status = none ∧
      (main (fun _ => some (1 : ℝ)) (fun _ => "x")
        ["cubic", "1", "1", "1", "1"]).stdout.toList.count '\n' = 3) := by
  have hbad : (["cubic"] : List String).tail.length ≠ 4 ∨
      (∃ s ∈ (["cubic"] : List String).tail, (fun _ => some (1 : ℝ)) s = none) ∨
      (∃ s, (["cubic"] : List String).tail.head? = some s ∧
        (fun _ => some (1 : ℝ)) s = some 0) := Or.inl (by decide)
  have hgood : ¬((["cubic", "1", "1", "1", "1"] : List String).tail.length ≠ 4 ∨
      (∃ s ∈ (["cubic", "1", "1", "1", "1"] : List String).tail,
        (fun _ => some (1 : ℝ)) s = none) ∨
      (∃ s, (["cubic", "1", "1", "1", "1"] : List String).tail.head? = some s ∧
        (fun _ => some (1 : ℝ)) s = some 0)) := by
    simp
  have hfmt : ∀ x : ℝ, '\n' ∉ ((fun _ => "x") x : String).toList := by
    intro x
    show '\n' ∉ ("x" : String).toList
    decide
  have hw := (C10_exit_status_and_output (fun _ => some (1 : ℝ)) (fun _ => "x")
    ["cubic", "1", "1", "1", "1"]).2 hgood
  exact ⟨⟨hbad, (C10_exit_status_and_output (fun _ => some (1 : ℝ)) (fun _ => "x")
    ["cubic"]).1 hbad⟩, hgood, hw.1, hw.2.2 hfmt⟩

/-- C11: errors are detected in a fixed order.  A wrong argument count gives the
usage text whatever the arguments are; with four coefficient arguments the error
names the first one, in the order c3, c2, c1, c0, that fails to parse; the
zero-leading-coefficient error is reported only when all four have parsed.  In
particular, when c3 parses to 0 and a later argument fails to parse, the error
is the parse error naming that argument, not the zero-coefficient error. -/
theorem C11_error_order (sscanf : String → Option ℝ) (fmt : ℝ → String)
    (argv : List String) :
    (argv.length ≠ 5 →
      (main sscanf fmt argv).stderr =
        "syntax: cubic c3 c2 c1 c0\nIndicate missing terms with zeroes.\n") ∧
    (argv.length = 5 → ∀ bad : String,
      argv.tail.find? (fun s => (sscanf s).isNone) = some bad →
        (main sscanf fmt argv).stderr = "cubic: cannot parse " ++ bad ++ "\n" ∧
        (main sscanf fmt argv).stderr ≠ "cubic: sorry buddy, that\x27s a quadratic.\n") ∧
    (argv.length = 5 → argv.tail.find? (fun s => (sscanf s).isNone) = none →
      ((∃ s, argv.tail.head? = some s ∧ sscanf s = some 0) ↔
        (main sscanf fmt argv).stderr = "cubic: sorry buddy, that\x27s a quadratic.\n")) := by
  refine ⟨fun hlen => ?_, fun hlen => ?_, fun hlen => ?_⟩
  · rw [main_usage sscanf fmt argv hlen]
  · obtain ⟨s0, s1, s2, s3, s4, rfl⟩ : ∃ s0 s1 s2 s3 s4, argv = [s0, s1, s2, s3, s4] := by
      rcases argv with _ | ⟨s0, _ | ⟨s1, _ | ⟨s2, _ | ⟨s3, _ | ⟨s4, _ | ⟨s5, rest⟩⟩⟩⟩⟩⟩ <;>
        simp at hlen
      exact ⟨s0, s1, s2, s3, s4, rfl⟩
    intro bad hbad
    have key : (main sscanf fmt [s0, s1, s2, s3, s4]).stderr =
        "cubic: cannot parse " ++ bad ++ "\n" := by
      rw [main_stderr_five]
      cases h1 : sscanf s1 <;> cases h2 : sscanf s2 <;> cases h3 : sscanf s3 <;>
        cases h4 : sscanf s4 <;>
        simp [List.find?, h1, h2, h3, h4] at hbad ⊢ <;> rw [hbad]
    exact ⟨key, by rw [key]; exact parse_msg_ne_quadratic bad⟩
  · obtain ⟨s0, s1, s2, s3, s4, rfl⟩ : ∃ s0 s1 s2 s3 s4, argv = [s0, s1, s2, s3, s4] := by
      rcases argv with _ | ⟨s0, _ | ⟨s1, _ | ⟨s2, _ | ⟨s3, _ | ⟨s4, _ | ⟨s5, rest⟩⟩⟩⟩⟩⟩ <;>
        simp at hlen
      exact ⟨s0, s1, s2, s3, s4, rfl⟩
    intro hall
    rw [main_stderr_five]
    cases h1 : sscanf s1 <;> cases h2 : sscanf s2 <;> cases h3 : sscanf s3 <;>
      cases h4 : sscanf s4 <;>
      simp [List.find?, h1, h2, h3, h4] at hall ⊢

/-- Witness for C11, with `sscanf` reading "0" as 0, failing on "x" and reading
anything else as 1: no coefficient argument gives the usage text; the arguments
0 1 x 1 give the parse error naming "x" although c3 parsed to 0; the arguments
0 1 1 1 give the zero-coefficient error. -/
theorem C11_error_order_witness :
    ((["cubic"] : List String).length ≠ 5 ∧
      (main (fun s => if s = "0" then some (0 : ℝ) else if s = "x" then none else some 1)
        (fun _ => "") ["cubic"]).stderr =
        "syntax: cubic c3 c2 c1 c0\nIndicate missing terms with zeroes.\n") ∧
    (((["cubic", "0", "1", "x", "1"] : List String).length = 5 ∧
      (["cubic", "0", "1", "x", "1"] : List String).tail.find?
        (fun s => ((fun s => if s = "0" then some (0 : ℝ) else if s = "x" then none else some 1)
          s).isNone) = some "x") ∧
      (main (fun s => if s = "0" then some (0 : ℝ) else if s = "x" then none else some 1)
        (fun _ => "") ["cubic", "0", "1", "x", "1"]).stderr = "cubic: cannot parse " ++ "x" ++ "\n" ∧
      (main (fun s => if s = "0" then some (0 : ℝ) else if s = "x" then none else some 1)
        (fun _ => "") ["cubic", "0", "1", "x", "1"]).stderr ≠
          "cubic: sorry buddy, that\x27s a quadratic.\n") ∧
    (((["cubic", "0", "1", "1", "1"] : List String).length = 5 ∧
      (["cubic", "0", "1", "1", "1"] : List String).tail.find?
        (fun s => ((fun s => if s = "0" then some (0 : ℝ) else if s = "x" then none else some 1)
          s).isNone) = none) ∧
      ((∃ s, (["cubic", "0", "1", "1", "1"] : List String).tail.head? = some s ∧
          (fun s => if s = "0" then some (0 : ℝ) else if s = "x" then none else some 1) s =
            some 0) ↔
        (main (fun s => if s = "0" then some (0 : ℝ) else if s = "x" then none else some 1)
          (fun _ => "") ["cubic", "0", "1", "1", "1"]).stderr =
          "cubic: sorry buddy, that\x27s a quadratic.\n")) :=
  ⟨⟨by decide, (C11_error_order _ _ ["cubic"]).1 (by decide)⟩,
    ⟨⟨by decide, by simp [List.find?]⟩,
      (C11_error_order _ _ ["cubic", "0", "1", "x", "1"]).2.1 (by decide) "x"
        (by simp [List.find?])⟩,
    ⟨⟨by decide, by simp [List.find?]⟩,
      (C11_error_order _ _ ["cubic", "0", "1", "1", "1"]).2.2 (by decide)
        (by simp [List.find?])⟩⟩

/-- C12: `ctimes` and `cplus` are complex multiplication and addition,
`ctimes((x,y),(u,v)) = (xu − yv, xv + yu)` and `cplus((x,y),(u,v)) = (x+u, y+v)`;
the constants are `omega = (−1/2, √3/2)` and `omegasquared = (−1/2, −√3/2)`, and
under these operations `ctimes(omega, omega) = omegasquared` and
`ctimes(omega, omegasquared) = (1, 0)`, with `omega` itself different from
`(1, 0)`. -/
theorem C12_complex_arithmetic :
    (∀ x y u v : ℝ, ctimes (Complex x y) (Complex u v) = Complex (x * u - y * v) (x * v + y * u)) ∧
    (∀ x y u v : ℝ, cplus (Complex x y) (Complex u v) = Complex (x + u) (y + v)) ∧
    (∀ a b : COMPLEX ℝ, toC (ctimes a b) = toC a * toC b ∧ toC (cplus a b) = toC a + toC b) ∧
    (omega : COMPLEX ℝ) = Complex (-1 / 2) (√3 / 2) ∧
    (omegasquared : COMPLEX ℝ) = Complex (-1 / 2) (-√3 / 2) ∧
    ctimes (omega : COMPLEX ℝ) omega = omegasquared ∧
    ctimes (omega : COMPLEX ℝ) omegasquared = Complex 1 0 ∧
    (omega : COMPLEX ℝ) ≠ Complex 1 0 := by
  have hk := sqrt3_sq
  refine ⟨fun x y u v => rfl, fun x y u v => rfl,
    fun a b => ⟨toC_ctimes a b, toC_cplus a b⟩, omega_eq, omegasquared_eq, ?_, ?_, ?_⟩
  · rw [omega_eq, omegasquared_eq]
    simp only [ctimes, COMPLEX.mk.injEq]
    constructor
    · linear_combination (-1 / 4 : ℝ) * hk
    · ring
  · rw [omega_eq, omegasquared_eq]
    simp only [ctimes, Complex, COMPLEX.mk.injEq]
    constructor
    · linear_combination (1 / 4 : ℝ) * hk
    · ring
  · rw [omega_eq]
    simp only [Complex, ne_eq, COMPLEX.mk.injEq, not_and]
    intro h
    norm_num at h

/-- C13: with number formatting modelled as `fmt : ℝ → String`: on success
(four arguments that parse, the first not to 0) standard output is exactly three
newline-terminated lines, for root_1, root_2, root_3 in that order; the line of
a root is `fmt` of its real part alone when its imaginary part is exactly zero,
and otherwise `fmt` of the real part, then " + " for a positive or " - " for a
negative imaginary part, then `fmt` of the absolute value of the imaginary part,
then " i". -/
theorem C13_output_format (sscanf : String → Option ℝ) (fmt : ℝ → String)
    (s0 s1 s2 s3 s4 : String) (o p q r : ℝ)
    (h1 : sscanf s1 = some o) (h2 : sscanf s2 = some p) (h3 : sscanf s3 = some q)
    (h4 : sscanf s4 = some r) (ho : o ≠ 0) :
    (main sscanf fmt [s0, s1, s2, s3, s4]).stdout =
      print_root fmt (roots o p q r).root_1 ++ "\n" ++
      print_root fmt (roots o p q r).root_2 ++ "\n" ++
      print_root fmt (roots o p q r).root_3 ++ "\n" ∧
    ∀ z : COMPLEX ℝ,
      (z.imag = 0 → print_root fmt z = fmt z.real) ∧
      (0 < z.imag → print_root fmt z = fmt z.real ++ " + " ++ fmt |z.imag| ++ " i") ∧
      (z.imag < 0 → print_root fmt z = fmt z.real ++ " - " ++ fmt |z.imag| ++ " i") := by
  rw [main_success sscanf fmt s0 s1 s2 s3 s4 o p q r h1 h2 h3 h4 ho]
  exact ⟨rfl, print_root_cases fmt⟩

/-- Witness for C13: four arguments that all parse to 1 and a format that
prints every number as "x"; the three shapes of a line at the roots `(1, 0)`,
`(1, 2)` and `(1, -2)`. -/
theorem C13_output_format_witness :
    ((fun _ => some (1 : ℝ)) "1" = some (1 : ℝ) ∧ (1 : ℝ) ≠ 0) ∧
    (main (fun _ => some (1 : ℝ)) (fun _ => "x") ["cubic", "1", "1", "1", "1"]).stdout =
      print_root (fun _ => "x") (roots (1 : ℝ) 1 1 1).root_1 ++ "\n" ++
      print_root (fun _ => "x") (roots (1 : ℝ) 1 1 1).root_2 ++ "\n" ++
      print_root (fun _ => "x") (roots (1 : ℝ) 1 1 1).root_3 ++ "\n" ∧
    print_root (fun _ => "x") (⟨1, 0⟩ : COMPLEX ℝ) = "x" ∧
    print_root (fun _ => "x") (⟨1, 2⟩ : COMPLEX ℝ) = "x + x i" ∧
    print_root (fun _ => "x") (⟨1, -2⟩ : COMPLEX ℝ) = "x - x i" := by
  have hw := C13_output_format (fun _ => some (1 : ℝ)) (fun _ => "x") "cubic" "1" "1" "1" "1"
    1 1 1 1 rfl rfl rfl rfl one_ne_zero
  refine ⟨⟨rfl, one_ne_zero⟩, hw.1, ?_, ?_, ?_⟩
  · exact (hw.2 ⟨1, 0⟩).1 rfl
  · have h := (hw.2 ⟨1, 2⟩).2.1 (by norm_num)
    rw [h]
    decide
  · have h := (hw.2 ⟨1, -2⟩).2.2 (by norm_num)
    rw [h]
    decide

/-- C14: in the `t ≥ 0` branch, after the sign-handling step `l` and `m` are the
real cube roots of `−(b/2 + √t)` and `−(b/2 − √t)`: for reals `a`, `b` with
`t = b²/4 + a³/27 ≥ 0`, `l³ = −(b/2 + √t)` and `m³ = −(b/2 − √t)`, and
`l = −sign(x)·|x|^(1/3)` for `x = b/2 + √t`, likewise `m` for `x = b/2 − √t`,
whichever sign case is taken. -/
theorem C14_signed_cube_roots (a b t : ℝ) (ht : t = b * b / 4 + a * a * a / 27)
    (h0 : 0 ≤ t) :
    (cardano_lm b t).1 ^ 3 = -(b / 2 + √t) ∧
    (cardano_lm b t).2 ^ 3 = -(b / 2 - √t) ∧
    (cardano_lm b t).1 = -(Real.sign (b / 2 + √t) * |b / 2 + √t| ^ (1 / 3 : ℝ)) ∧
    (cardano_lm b t).2 = -(Real.sign (b / 2 - √t) * |b / 2 - √t| ^ (1 / 3 : ℝ)) ∧
    (cardano_lm b t).1 * (cardano_lm b t).2 = -a / 3 := by
  refine ⟨cardano_lm_fst_cube b t, cardano_lm_snd_cube b t, ?_, ?_,
    cardano_lm_mul a b t ht h0⟩
  · rw [cardano_lm_fst, signed_cbrt]
  · rw [cardano_lm_snd, signed_cbrt]

/-- Witness for C14 at `a = 0`, `b = -8`, where `t = 16`. -/
theorem C14_signed_cube_roots_witness :
    ((16 : ℝ) = -8 * -8 / 4 + 0 * 0 * 0 / 27 ∧ (0 : ℝ) ≤ 16) ∧
    ((cardano_lm (-8 : ℝ) 16).1 ^ 3 = -(-8 / 2 + √16) ∧
    (cardano_lm (-8 : ℝ) 16).2 ^ 3 = -(-8 / 2 - √16) ∧
    (cardano_lm (-8 : ℝ) 16).1 = -(Real.sign (-8 / 2 + √16) * |(-8 : ℝ) / 2 + √16| ^ (1 / 3 : ℝ)) ∧
    (cardano_lm (-8 : ℝ) 16).2 = -(Real.sign (-8 / 2 - √16) * |(-8 : ℝ) / 2 - √16| ^ (1 / 3 : ℝ)) ∧
    (cardano_lm (-8 : ℝ) 16).1 * (cardano_lm (-8 : ℝ) 16).2 = -0 / 3) :=
  ⟨⟨by norm_num, by norm_num⟩,
    C14_signed_cube_roots 0 (-8) 16 (by norm_num) (by norm_num)⟩

/-- In exact real arithmetic every operation of the trigonometric branch is
applied inside its domain: for reals `a`, `b` with `t = b²/4 + a³/27 < 0`,
`a < 0`, the first `rho = (−a)^1.5/√27` is strictly positive,
`−1 < b/(2·rho) < 1` (also in the form `b / rho / 2` the code computes), and
`theta` lies strictly between `0` and `π`.  On the program's doubles rounding
can push the quotient out of `[-1, 1]`. -/
theorem trig_branch_domains_exact (a b : ℝ) (ht : b * b / 4 + a * a * a / 27 < 0) :
    a < 0 ∧ 0 < -a ∧
    trig_rho a = (-a) ^ (1.5 : ℝ) / √27 ∧ 0 < trig_rho a ∧
    (-1 < b / trig_rho a / 2 ∧ b / trig_rho a / 2 < 1) ∧
    (-1 < b / (2 * trig_rho a) ∧ b / (2 * trig_rho a) < 1) ∧
    trig_theta a b = Real.arccos (b / trig_rho a / 2) ∧
    0 < trig_theta a b ∧ trig_theta a b < Real.pi := by
  have ha := neg_a_of_neg_t a b ht
  have hb := acos_arg_bounds a b ht
  have hθ := theta_bounds a b ht
  have e : b / (2 * trig_rho a) = b / trig_rho a / 2 := by
    rw [div_div, mul_comm]
  rw [e, trig_theta_eq, trig_rho_eq]
  refine ⟨ha, by linarith, by norm_num, rho_pos a ha, hb, hb, rfl, hθ.1, hθ.2⟩

/-- The exact-arithmetic domain facts at `a = -1`, `b = 0`, where `t = -1/27`. -/
theorem trig_branch_domains_exact_witness :
    ((0 : ℝ) * 0 / 4 + -1 * -1 * -1 / 27 < 0) ∧
    ((-1 : ℝ) < 0 ∧ (0 : ℝ) < -(-1) ∧
    trig_rho (-1 : ℝ) = (-(-1 : ℝ)) ^ (1.5 : ℝ) / √27 ∧ 0 < trig_rho (-1 : ℝ) ∧
    (-1 < (0 : ℝ) / trig_rho (-1 : ℝ) / 2 ∧ (0 : ℝ) / trig_rho (-1 : ℝ) / 2 < 1) ∧
    (-1 < (0 : ℝ) / (2 * trig_rho (-1 : ℝ)) ∧ (0 : ℝ) / (2 * trig_rho (-1 : ℝ)) < 1) ∧
    trig_theta (-1 : ℝ) 0 = Real.arccos (0 / trig_rho (-1 : ℝ) / 2) ∧
    0 < trig_theta (-1 : ℝ) 0 ∧ trig_theta (-1 : ℝ) 0 < Real.pi) :=
  ⟨by norm_num, trig_branch_domains_exact (-1) 0 (by norm_num)⟩

/-- C15 at its failing input, on the program's doubles.  For the arguments
`3 -4 -3.6666666666666665 -0.66666666666666663` IEEE double arithmetic computes
`t = -2^-55 < 0`, so the trigonometric branch is taken with `a < 0` and
`rho > 0`, but the argument `b / rho / 2.0` handed to `acos` on line 98 is the
double `-(1 + 2^-52)`, below `-1` and outside the domain of `acos`. -/
theorem C15_failing_input_doubles :
    (depress (⟨3⟩ : Dbl) ⟨-4⟩ (-3.6666666666666665) (-0.66666666666666663)).t < 0.0 ∧
    (depress (⟨3⟩ : Dbl) ⟨-4⟩ (-3.6666666666666665) (-0.66666666666666663)).a.val < 0 ∧
    0 < (trig_rho
      (depress (⟨3⟩ : Dbl) ⟨-4⟩ (-3.6666666666666665) (-0.66666666666666663)).a).val ∧
    ((depress (⟨3⟩ : Dbl) ⟨-4⟩ (-3.6666666666666665) (-0.66666666666666663)).b /
      trig_rho (depress (⟨3⟩ : Dbl) ⟨-4⟩ (-3.6666666666666665) (-0.66666666666666663)).a /
      2.0).val = -(1 + 1 / 2 ^ 52) ∧
    ((depress (⟨3⟩ : Dbl) ⟨-4⟩ (-3.6666666666666665) (-0.66666666666666663)).b /
      trig_rho (depress (⟨3⟩ : Dbl) ⟨-4⟩ (-3.6666666666666665) (-0.66666666666666663)).a /
      2.0).val < -1 := by
  rw [depress_doubles_nan_run]
  simp only [trig_rho_doubles_nan_run, acos_arg_doubles_nan_run, lit_zero]
  refine ⟨?_, ?_, ?_, ?_, ?_⟩
  · show (-1 / 2 ^ 55 : ℝ) < 0
    norm_num
  · norm_num
  · norm_num
  · norm_num
  · norm_num

/-- C16: the three reported roots are all the roots of the cubic, with the right
multiplicities: for real coefficients with `c3 ≠ 0` and every complex `z`,
`c3·z³ + c2·z² + c1·z + c0 = c3·(z − r1)·(z − r2)·(z − r3)`; in particular
`r1·r2 + r1·r3 + r2·r3 = c1/c3`. -/
theorem C16_factorisation (c3 c2 c1 c0 : ℝ) (h3 : c3 ≠ 0) :
    (∀ z : ℂ, (c3 : ℂ) * z ^ 3 + c2 * z ^ 2 + c1 * z + c0 =
      c3 * (z - toC (roots c3 c2 c1 c0).root_1) * (z - toC (roots c3 c2 c1 c0).root_2) *
        (z - toC (roots c3 c2 c1 c0).root_3)) ∧
    toC (roots c3 c2 c1 c0).root_1 * toC (roots c3 c2 c1 c0).root_2 +
      toC (roots c3 c2 c1 c0).root_1 * toC (roots c3 c2 c1 c0).root_3 +
      toC (roots c3 c2 c1 c0).root_2 * toC (roots c3 c2 c1 c0).root_3 =
        ((c1 / c3 : ℝ) : ℂ) := by
  refine ⟨roots_factor c3 c2 c1 c0 h3, ?_⟩
  obtain ⟨e1, e2, -⟩ := solve_vieta c3 c2 c1 c0
  rw [depress_a] at e2
  rw [toC_root_1, toC_root_2, toC_root_3]
  push_cast at e2 ⊢
  linear_combination (-2 * ((c2 : ℂ) / c3 / 3)) * e1 + e2

/-- Witness for C16 at the coefficients (1, -6, 11, -6). -/
theorem C16_factorisation_witness :
    (1 : ℝ) ≠ 0 ∧
    ((∀ z : ℂ, ((1 : ℝ) : ℂ) * z ^ 3 + ((-6 : ℝ) : ℂ) * z ^ 2 + ((11 : ℝ) : ℂ) * z +
        ((-6 : ℝ) : ℂ) =
      ((1 : ℝ) : ℂ) * (z - toC (roots (1 : ℝ) (-6) 11 (-6)).root_1) *
        (z - toC (roots (1 : ℝ) (-6) 11 (-6)).root_2) *
        (z - toC (roots (1 : ℝ) (-6) 11 (-6)).root_3)) ∧
    toC (roots (1 : ℝ) (-6) 11 (-6)).root_1 * toC (roots (1 : ℝ) (-6) 11 (-6)).root_2 +
      toC (roots (1 : ℝ) (-6) 11 (-6)).root_1 * toC (roots (1 : ℝ) (-6) 11 (-6)).root_3 +
      toC (roots (1 : ℝ) (-6) 11 (-6)).root_2 * toC (roots (1 : ℝ) (-6) 11 (-6)).root_3 =
        ((11 / 1 : ℝ) : ℂ)) :=
  ⟨one_ne_zero, C16_factorisation 1 (-6) 11 (-6) one_ne_zero⟩

/-- C17: in the trigonometric branch the roots come out in a fixed numerical
order: for real coefficients with `c3 ≠ 0` and `t < 0` the real parts satisfy
`root_1 < root_3 < root_2`. -/
theorem C17_trig_root_order (c3 c2 c1 c0 : ℝ) (_h3 : c3 ≠ 0)
    (ht : (depress c3 c2 c1 c0).t < 0) :
    (roots c3 c2 c1 c0).root_1.real < (roots c3 c2 c1 c0).root_3.real ∧
    (roots c3 c2 c1 c0).root_3.real < (roots c3 c2 c1 c0).root_2.real := by
  have ht2 : (depress c3 c2 c1 c0).b * (depress c3 c2 c1 c0).b / 4 +
      (depress c3 c2 c1 c0).a * (depress c3 c2 c1 c0).a * (depress c3 c2 c1 c0).a / 27 < 0 := by
    rw [← depress_t]; exact ht
  obtain ⟨o1, o2⟩ := trig_order _ _ ht2
  rw [roots_root_1, roots_root_2, roots_root_3, solve_neg c3 c2 c1 c0 ht]
  constructor
  · show _ - _ < _ - _
    linarith
  · show _ - _ < _ - _
    linarith

/-- Witness for C17 at the coefficients (1, -6, 11, -6), where `t = -1/27` and
the roots come out as 1, 3, 2. -/
theorem C17_trig_root_order_witness :
    ((1 : ℝ) ≠ 0 ∧ (depress (1 : ℝ) (-6) 11 (-6)).t < 0) ∧
    ((roots (1 : ℝ) (-6) 11 (-6)).root_1.real < (roots (1 : ℝ) (-6) 11 (-6)).root_3.real ∧
    (roots (1 : ℝ) (-6) 11 (-6)).root_3.real < (roots (1 : ℝ) (-6) 11 (-6)).root_2.real) :=
  ⟨⟨one_ne_zero, depress_123.2.2⟩,
    C17_trig_root_order 1 (-6) 11 (-6) one_ne_zero depress_123.2.2⟩

/-- C18: in the Cardano branch the conjugate pair comes out in a fixed order:
for real coefficients with `c3 ≠ 0` and `t ≥ 0`, `l ≤ m` after the cube-root
step, root_2 has imaginary part `(√3/2)·(l − m) ≤ 0` and root_3 has imaginary
part `(√3/2)·(m − l) ≥ 0`, root_1 has imaginary part `0`; when `t > 0` all are
strict, so root_2 is printed with " - " and root_3, after it, with " + ". -/
theorem C18_conjugate_pair_order (c3 c2 c1 c0 : ℝ) (_h3 : c3 ≠ 0)
    (ht : 0 ≤ (depress c3 c2 c1 c0).t) :
    (cardano_lm (depress c3 c2 c1 c0).b (depress c3 c2 c1 c0).t).1 ≤
      (cardano_lm (depress c3 c2 c1 c0).b (depress c3 c2 c1 c0).t).2 ∧
    (roots c3 c2 c1 c0).root_1.imag = 0 ∧
    (roots c3 c2 c1 c0).root_2.imag =
      √3 / 2 * ((cardano_lm (depress c3 c2 c1 c0).b (depress c3 c2 c1 c0).t).1 -
        (cardano_lm (depress c3 c2 c1 c0).b (depress c3 c2 c1 c0).t).2) ∧
    (roots c3 c2 c1 c0).root_2.imag ≤ 0 ∧
    (roots c3 c2 c1 c0).root_3.imag =
      √3 / 2 * ((cardano_lm (depress c3 c2 c1 c0).b (depress c3 c2 c1 c0).t).2 -
        (cardano_lm (depress c3 c2 c1 c0).b (depress c3 c2 c1 c0).t).1) ∧
    0 ≤ (roots c3 c2 c1 c0).root_3.imag ∧
    (0 < (depress c3 c2 c1 c0).t →
      (cardano_lm (depress c3 c2 c1 c0).b (depress c3 c2 c1 c0).t).1 <
        (cardano_lm (depress c3 c2 c1 c0).b (depress c3 c2 c1 c0).t).2 ∧
      (roots c3 c2 c1 c0).root_2.imag < 0 ∧ 0 < (roots c3 c2 c1 c0).root_3.imag ∧
      ∀ fmt : ℝ → String,
        print_root fmt (roots c3 c2 c1 c0).root_2 =
          fmt (roots c3 c2 c1 c0).root_2.real ++ " - " ++
            fmt |(roots c3 c2 c1 c0).root_2.imag| ++ " i" ∧
        print_root fmt (roots c3 c2 c1 c0).root_3 =
          fmt (roots c3 c2 c1 c0).root_3.real ++ " + " ++
            fmt |(roots c3 c2 c1 c0).root_3.imag| ++ " i") := by
  have hle := cardano_lm_le (depress c3 c2 c1 c0).b (depress c3 c2 c1 c0).t
  have hk := sqrt3_pos
  have i1 : (roots c3 c2 c1 c0).root_1.imag = 0 := by
    rw [roots_root_1, solve_nonneg c3 c2 c1 c0 ht, cardano_root_1]
  have i2 : (roots c3 c2 c1 c0).root_2.imag =
      √3 / 2 * ((cardano_lm (depress c3 c2 c1 c0).b (depress c3 c2 c1 c0).t).1 -
        (cardano_lm (depress c3 c2 c1 c0).b (depress c3 c2 c1 c0).t).2) := by
    rw [roots_root_2, solve_nonneg c3 c2 c1 c0 ht, cardano_root_2]
  have i3 : (roots c3 c2 c1 c0).root_3.imag =
      √3 / 2 * ((cardano_lm (depress c3 c2 c1 c0).b (depress c3 c2 c1 c0).t).2 -
        (cardano_lm (depress c3 c2 c1 c0).b (depress c3 c2 c1 c0).t).1) := by
    rw [roots_root_3, solve_nonneg c3 c2 c1 c0 ht, cardano_root_3]
  have n2 : (roots c3 c2 c1 c0).root_2.imag ≤ 0 := by
    rw [i2]
    exact mul_nonpos_of_nonneg_of_nonpos (by positivity) (by linarith)
  have n3 : 0 ≤ (roots c3 c2 c1 c0).root_3.imag := by
    rw [i3]
    exact mul_nonneg (by positivity) (by linarith)
  refine ⟨hle, i1, i2, n2, i3, n3, fun hpos => ?_⟩
  have hlt := cardano_lm_lt (depress c3 c2 c1 c0).b (depress c3 c2 c1 c0).t hpos
  have s2 : (roots c3 c2 c1 c0).root_2.imag < 0 := by
    rw [i2]
    exact mul_neg_of_pos_of_neg (by positivity) (by linarith)
  have s3 : 0 < (roots c3 c2 c1 c0).root_3.imag := by
    rw [i3]
    exact mul_pos (by positivity) (by linarith)
  exact ⟨hlt, s2, s3, fun fmt =>
    ⟨(print_root_cases fmt _).2.2 s2, (print_root_cases fmt _).2.1 s3⟩⟩

/-- Witness for C18 at the coefficients (1, 0, 0, -8), where `t = 16 > 0`. -/
theorem C18_conjugate_pair_order_witness :
    ((1 : ℝ) ≠ 0 ∧ 0 < (depress (1 : ℝ) 0 0 (-8)).t) ∧
    ((cardano_lm (depress (1 : ℝ) 0 0 (-8)).b (depress (1 : ℝ) 0 0 (-8)).t).1 <
        (cardano_lm (depress (1 : ℝ) 0 0 (-8)).b (depress (1 : ℝ) 0 0 (-8)).t).2 ∧
      (roots (1 : ℝ) 0 0 (-8)).root_2.imag < 0 ∧ 0 < (roots (1 : ℝ) 0 0 (-8)).root_3.imag ∧
      ∀ fmt : ℝ → String,
        print_root fmt (roots (1 : ℝ) 0 0 (-8)).root_2 =
          fmt (roots (1 : ℝ) 0 0 (-8)).root_2.real ++ " - " ++
            fmt |(roots (1 : ℝ) 0 0 (-8)).root_2.imag| ++ " i" ∧
        print_root fmt (roots (1 : ℝ) 0 0 (-8)).root_3 =
          fmt (roots (1 : ℝ) 0 0 (-8)).root_3.real ++ " + " ++
            fmt |(roots (1 : ℝ) 0 0 (-8)).root_3.imag| ++ " i") :=
  ⟨⟨one_ne_zero, by rw [depress_x3_8.2.2]; norm_num⟩,
    (C18_conjugate_pair_order 1 0 0 (-8) one_ne_zero
      (by rw [depress_x3_8.2.2]; norm_num)).2.2.2.2.2.2
      (by rw [depress_x3_8.2.2]; norm_num)⟩

/-- C19: the roots depend only on the ratios of the coefficients: for reals
`k ≠ 0`, `c3 ≠ 0`, solving `(k·c3, k·c2, k·c1, k·c0)` gives the same three
roots, in the same order, as solving `(c3, c2, c1, c0)`. -/
theorem C19_scaling_invariance (k c3 c2 c1 c0 : ℝ) (hk : k ≠ 0) (_h3 : c3 ≠ 0) :
    roots (k * c3) (k * c2) (k * c1) (k * c0) = roots c3 c2 c1 c0 := by
  simp only [roots, solve, depress_scale k c3 c2 c1 c0 hk]

/-- Witness for C19 at `k = 2` and the coefficients (1, -6, 11, -6). -/
theorem C19_scaling_invariance_witness :
    ((2 : ℝ) ≠ 0 ∧ (1 : ℝ) ≠ 0) ∧
    roots ((2 : ℝ) * 1) (2 * -6) (2 * 11) (2 * -6) = roots (1 : ℝ) (-6) 11 (-6) :=
  ⟨⟨two_ne_zero, one_ne_zero⟩, C19_scaling_invariance 2 1 (-6) 11 (-6) two_ne_zero one_ne_zero⟩

end CubicSolver
